import Mathlib

/-!
Verification of the document/invoice field-extraction core of the
`start12` point-of-service tracker (files `tracker/extraction_utils.py`
and `tracker/utils/document_extraction.py`).

The Python code is shallowly embedded: strings are `String`/`List Char`,
Python `re` patterns are translated into an explicit backtracking
matcher (`RE`/`mrun`) with Python's leftmost search, greedy/lazy
quantifier and capture-group semantics, `Decimal` is an exact
coefficient/exponent pair, and Python dicts with heterogeneous values
become insertion-ordered association lists over a `Val` type.
Embeddings follow ASCII semantics of the Python string operations
(`upper`, `lower`, `strip`, `splitlines`), which is the alphabet the
extraction regexes operate on.
-/

namespace Start12

/-! ## Python-style string primitives -/

/-- The whitespace characters recognised by Python's `\s`, `str.strip`
and `str.splitlines` on the ASCII range. -/
def isPyWs (c : Char) : Bool :=
  c == ' ' || c == '\t' || c == '\n' || c == '\x0b' || c == '\x0c' || c == '\r'

/-- Python `str.strip()` (leading side), on char lists. -/
def stripLead (l : List Char) : List Char := l.dropWhile isPyWs

/-- Python `str.strip()` on char lists: drop whitespace from both ends. -/
def pyStripL (l : List Char) : List Char :=
  ((l.dropWhile isPyWs).reverse.dropWhile isPyWs).reverse

/-- Python `str.strip()`. -/
def pyStrip (s : String) : String := ⟨pyStripL s.data⟩

/-- Python `str.lower()` (ASCII range). -/
def pyLowerL (l : List Char) : List Char := l.map Char.toLower

/-- Python `str.lower()` on strings. -/
def pyLowerS (s : String) : String := ⟨pyLowerL s.data⟩

/-- Python `str.upper()` (ASCII range). -/
def pyUpperL (l : List Char) : List Char := l.map Char.toUpper

/-- Does `l` start with `pat`? (Python `str.startswith` on char lists.) -/
def leadsWith : List Char → List Char → Bool
  | [], _ => true
  | _ :: _, [] => false
  | a :: as, b :: bs => a == b && leadsWith as bs

/-- Python's substring test `needle in hay` on char lists. -/
def hasSub (hay needle : List Char) : Bool :=
  leadsWith needle hay ||
    match hay with
    | [] => false
    | _ :: t => hasSub t needle

/-- Python `hay.endswith(tail)`. -/
def pyEndsWith (hay tail : String) : Bool :=
  leadsWith tail.data.reverse hay.data.reverse

/-- Python `str.splitlines()` on `\n`-normalised text, on char lists.
`_parse_text` rewrites `\r\n`/`\r` to `\n` before splitting, so only
`\n` separators occur; the representation keeps a final empty piece
(dropped by Python) which every consumer below filters out or cannot
match a non-empty keyword against. -/
def splitNl : List Char → List (List Char)
  | [] => [[]]
  | c :: rest =>
    if c = '\n' then [] :: splitNl rest
    else
      match splitNl rest with
      | [] => [[c]]
      | h :: t => (c :: h) :: t

/-- Python `list(dict.fromkeys(l))`: deduplicate keeping first occurrences. -/
def pyDedup : List String → List String
  | [] => []
  | x :: xs => x :: (pyDedup (xs.filter (fun y => ¬ (y == x))))
termination_by l => l.length
decreasing_by
  simp only [List.length_cons]
  exact Nat.lt_succ_of_le (List.length_filter_le _ _)

/-! ## A backtracking regex matcher

Translation target for the `re` patterns of the source.  The matcher
follows Python's `re.search` semantics: leftmost starting position
wins, alternatives are tried left to right, greedy quantifiers prefer
longer iterations and lazy ones shorter, and capture groups record the
positions of their most recent participation. -/

/-- One recorded capture: (group index, start, stop). -/
abbrev Cap := Nat × Nat × Nat

/-- Regex abstract syntax: the constructs used by the source patterns.
`rep lo hi lz a` is `a{lo,hi}` (`hi = none` means unbounded) with
`lz = true` for lazy repetition. `prevNot`/`nextNot` are the
single-character negative lookbehind/lookahead `(?<![...])`/`(?![...])`,
`lineEnd` is `$` under `re.MULTILINE`, `wordB` is `\b`. -/
inductive RE where
  | eps
  | cls (p : Char → Bool)
  | seq (a b : RE)
  | alt (a b : RE)
  | rep (lo : Nat) (hi : Option Nat) (lz : Bool) (a : RE)
  | grp (i : Nat) (a : RE)
  | prevNot (p : Char → Bool)
  | nextNot (p : Char → Bool)
  | lineEnd
  | wordB

/-- Is the character at position `pos` (if any) a word character (`\w`)? -/
def wordAt (t : List Char) (pos : Nat) : Bool :=
  match t.get? pos with
  | some c => c.isAlphanum || c == '_'
  | none => false

/-- Backtracking matcher in continuation style.  `mrun t fuel re pos
caps k` tries to match `re` in `t` starting at `pos`, calling `k` with
the end position and captures of each candidate in Python's preference
order and returning the first success.  `fuel` bounds recursion depth;
all fuel values used below are large enough for the source patterns,
whose repetition bodies all consume at least one character. -/
def mrun (t : List Char) :
    Nat → RE → Nat → List Cap →
    (Nat → List Cap → Option (Nat × List Cap)) → Option (Nat × List Cap)
  | 0, _, _, _, _ => none
  | fuel + 1, re, pos, caps, k =>
    match re with
    | .eps => k pos caps
    | .cls p =>
      match t.get? pos with
      | some c => if p c then k (pos + 1) caps else none
      | none => none
    | .seq a b => mrun t fuel a pos caps (fun p2 c2 => mrun t fuel b p2 c2 k)
    | .alt a b =>
      match mrun t fuel a pos caps k with
      | some r => some r
      | none => mrun t fuel b pos caps k
    | .rep lo hi lz a =>
      if lo > 0 then
        mrun t fuel a pos caps
          (fun p2 c2 => mrun t fuel (.rep (lo - 1) (hi.map (· - 1)) lz a) p2 c2 k)
      else
        match hi with
        | some 0 => k pos caps
        | _ =>
          if lz then
            match k pos caps with
            | some r => some r
            | none =>
              mrun t fuel a pos caps
                (fun p2 c2 => mrun t fuel (.rep 0 (hi.map (· - 1)) lz a) p2 c2 k)
          else
            match mrun t fuel a pos caps
                (fun p2 c2 => mrun t fuel (.rep 0 (hi.map (· - 1)) lz a) p2 c2 k) with
            | some r => some r
            | none => k pos caps
    | .grp i a => mrun t fuel a pos caps (fun p2 c2 => k p2 ((i, pos, p2) :: c2))
    | .prevNot p =>
      match pos with
      | 0 => k pos caps
      | q + 1 =>
        match t.get? q with
        | some c => if p c then none else k pos caps
        | none => k pos caps
    | .nextNot p =>
      match t.get? pos with
      | some c => if p c then none else k pos caps
      | none => k pos caps
    | .lineEnd =>
      match t.get? pos with
      | some c => if c = '\n' then k pos caps else none
      | none => k pos caps
    | .wordB =>
      if (match pos with | 0 => false | q + 1 => wordAt t q) != wordAt t pos then
        k pos caps
      else none

/-- Fuel that bounds the matcher's recursion depth for the source
patterns on text `t`. -/
def reFuel (t : List Char) : Nat := 600 * (t.length + 2) + 600

/-- Try to match `re` at exactly position `pos` (Python's per-position
attempt inside `re.search`). -/
def matchAt (t : List Char) (re : RE) (pos : Nat) : Option (Nat × List Cap) :=
  mrun t (reFuel t) re pos [] (fun p c => some (p, c))

/-- `searchFrom` scans positions left to right (the second `Nat` is the
remaining number of positions). -/
def searchFrom (t : List Char) (re : RE) : Nat → Nat → Option (Nat × Nat × List Cap)
  | _, 0 => none
  | pos, fuel + 1 =>
    match matchAt t re pos with
    | some (e, caps) => some (pos, e, caps)
    | none => if pos < t.length then searchFrom t re (pos + 1) fuel else none

/-- Python `re.search(pattern, text)`: the match at the leftmost
position where the pattern matches, as (start, stop, captures). -/
def reSearch (t : List Char) (re : RE) : Option (Nat × Nat × List Cap) :=
  searchFrom t re 0 (t.length + 1)

/-- The substring of `t` from `s` (inclusive) to `e` (exclusive). -/
def sliceL (t : List Char) (s e : Nat) : List Char := (t.drop s).take (e - s)

/-- The span recorded for capture group `i`, if it participated. -/
def capSpan (caps : List Cap) (i : Nat) : Option (Nat × Nat) :=
  (caps.find? (fun c => c.1 == i)).map (fun c => c.2)

/-- Python `match.group(i)`: `i = 0` is the whole match; an
unparticipated group yields `none` (Python `None`). -/
def groupVal (t : List Char) (m : Nat × Nat × List Cap) (i : Nat) :
    Option (List Char) :=
  if i = 0 then some (sliceL t m.1 m.2.1)
  else (capSpan m.2.2 i).map (fun sp => sliceL t sp.1 sp.2)

/-- Python `re.findall` for patterns without capture groups: the list
of whole matches, scanning left to right and resuming after each match
(advancing one position past an empty match). -/
def findAllFrom (t : List Char) (re : RE) : Nat → Nat → List (List Char)
  | _, 0 => []
  | pos, fuel + 1 =>
    match matchAt t re pos with
    | some (e, _) =>
      sliceL t pos e :: findAllFrom t re (if e = pos then pos + 1 else e) fuel
    | none => if pos < t.length then findAllFrom t re (pos + 1) fuel else []

/-- `re.findall` (whole matches). -/
def findAll (t : List Char) (re : RE) : List (List Char) :=
  findAllFrom t re 0 (t.length + 1)

/-- Python `re.findall` for patterns with exactly one capture group:
the list of group-1 texts (an unparticipated group yields `""`). -/
def findAllG1From (t : List Char) (re : RE) : Nat → Nat → List (List Char)
  | _, 0 => []
  | pos, fuel + 1 =>
    match matchAt t re pos with
    | some (e, caps) =>
      ((groupVal t (pos, e, caps) 1).getD []) ::
        findAllG1From t re (if e = pos then pos + 1 else e) fuel
    | none => if pos < t.length then findAllG1From t re (pos + 1) fuel else []

/-- `re.findall` (single capture group). -/
def findAllG1 (t : List Char) (re : RE) : List (List Char) :=
  findAllG1From t re 0 (t.length + 1)

/-! ### Pattern construction helpers -/

/-- Case-insensitive literal (all source searches use `re.IGNORECASE`). -/
def litCI (s : String) : RE :=
  s.data.foldr (fun c acc => .seq (.cls (fun x => x.toLower == c.toLower)) acc) .eps

/-- Case-sensitive literal (for the one search without flags). -/
def litCS (s : String) : RE :=
  s.data.foldr (fun c acc => .seq (.cls (fun x => x == c)) acc) .eps

/-- `[A-Z]` under `re.IGNORECASE`: any ASCII letter. -/
def clsAl : Char → Bool := Char.isAlpha

/-- `[A-Z0-9]` under `re.IGNORECASE`: any ASCII letter or digit. -/
def clsAlnum : Char → Bool := Char.isAlphanum

/-- `\d`. -/
def clsD : Char → Bool := Char.isDigit

/-- `[\d,]`. -/
def clsDC (c : Char) : Bool := c.isDigit || c == ','

/-- `[\s:]`. -/
def clsWsColon (c : Char) : Bool := isPyWs c || c == ':'

/-- `a?` (greedy). -/
def reOpt (a : RE) : RE := .rep 0 (some 1) false a

/-- `a*` (greedy). -/
def reStar (a : RE) : RE := .rep 0 none false a

/-- `a+` (greedy). -/
def rePlus (a : RE) : RE := .rep 1 none false a

/-- `a+?` (lazy). -/
def rePlusLz (a : RE) : RE := .rep 1 none true a

/-- Chained sequence. -/
def reCat (l : List RE) : RE := l.foldr .seq .eps

/-- Chained alternation (left to right preference, as written). -/
def reAlts : List RE → RE
  | [] => .eps
  | [a] => a
  | a :: rest => .alt a (reAlts rest)

/-- A single literal character. -/
def reChr (c : Char) : RE := .cls (fun x => x == c)

/-! ## Values and dictionaries

Python dict values flowing through the extraction core are strings,
lists of strings, ints, `None`, and lists of item dicts (raw string
items from `_extract_items`, decimal-normalised items from the
orchestrator). -/

/-- An exact model of `decimal.Decimal` values produced here: sign,
coefficient and (non-positive) exponent, value `±coeff·10^exp`. -/
structure PyDecimal where
  neg : Bool
  coeff : Nat
  exp : Int
  deriving DecidableEq, Repr

/-- The rational value of a `PyDecimal`. -/
def PyDecimal.toRat (d : PyDecimal) : ℚ :=
  (if d.neg then -(d.coeff : ℚ) else (d.coeff : ℚ)) * (10 : ℚ) ^ d.exp

/-- Digit list to `Nat` (the value of a decimal digit string). -/
def digitsToNat (l : List Char) : Nat :=
  l.foldl (fun acc c => 10 * acc + (c.toNat - 48)) 0

/-- The digits-and-dot part of `decimal.Decimal(s)` after the sign:
integer digits, optional fraction; anything else left over (or no digit
at all) raises `InvalidOperation`, modelled as `none`. -/
def pyDecUnsigned (sgn : Bool) (rest : List Char) : Option PyDecimal :=
  match rest.dropWhile Char.isDigit with
  | [] =>
    if rest.takeWhile Char.isDigit = [] then none
    else some ⟨sgn, digitsToNat (rest.takeWhile Char.isDigit), 0⟩
  | '.' :: fr =>
    if fr.dropWhile Char.isDigit = [] ∧
        (rest.takeWhile Char.isDigit ≠ [] ∨ fr.takeWhile Char.isDigit ≠ []) then
      some ⟨sgn, digitsToNat (rest.takeWhile Char.isDigit ++ fr.takeWhile Char.isDigit),
        -((fr.takeWhile Char.isDigit).length : Int)⟩
    else none
  | _ => none

/-- `decimal.Decimal(s)` for the plain numeric strings arising here:
optional sign, then digits with an optional single dot. -/
def pyDecimalOfChars (l : List Char) : Option PyDecimal :=
  match l with
  | '-' :: r => pyDecUnsigned true r
  | '+' :: r => pyDecUnsigned false r
  | r => pyDecUnsigned false r

/-- `str(Decimal)` for the values above (plain notation; the amounts met
here never trigger Python's scientific form). -/
def strPyDecimal (d : PyDecimal) : String :=
  let ds := toString d.coeff
  let frac := (-d.exp).toNat
  let core : String :=
    if frac = 0 then ds
    else
      let padded := (List.replicate (frac + 1 - ds.length) '0' ++ ds.data)
      let n := padded.length
      ⟨padded.take (n - frac) ++ '.' :: padded.drop (n - frac)⟩
  if d.neg then "-" ++ core else core

/-- A raw line item as produced by `DocumentExtractor._extract_items`:
the numeric fields are numeric strings. -/
structure RawItem where
  description : String
  code : Option String
  qty : Option String
  rate : Option String
  value : Option String
  deriving DecidableEq, Repr

/-- A normalised line item as produced by the orchestrator's item
normalisation (`process_invoice_extraction`). -/
structure NormItem where
  lineNo : Nat
  code : Option String
  descr : Option String
  qty : Option PyDecimal
  unit : Option String
  rate : Option PyDecimal
  value : Option PyDecimal
  deriving DecidableEq, Repr

/-- Python values stored in the extraction dictionaries. -/
inductive Val where
  | none
  | str (s : String)
  | list (l : List String)
  | natv (n : Nat)
  | rawItems (l : List RawItem)
  | normItems (l : List NormItem)
  deriving DecidableEq, Repr

/-- Python truthiness of a `Val`. -/
def Val.truthy : Val → Bool
  | .none => false
  | .str s => s ≠ ""
  | .list l => l ≠ []
  | .natv n => n ≠ 0
  | .rawItems l => l ≠ []
  | .normItems l => l ≠ []

/-- Python `isinstance(v, list)`. -/
def Val.isList : Val → Bool
  | .list _ => true
  | .rawItems _ => true
  | .normItems _ => true
  | _ => false

/-- Insertion-ordered dictionary with string keys (a Python dict). -/
abbrev PyDict := List (String × Val)

/-- `d.get(k)` (`None` for a missing key). -/
def dGet (d : PyDict) (k : String) : Option Val :=
  (d.find? (fun kv => kv.1 == k)).map (fun kv => kv.2)

/-- `d[k] = v`: update in place if present (Python dicts keep the
original key position), else append. -/
def dSet (d : PyDict) (k : String) (v : Val) : PyDict :=
  match d with
  | [] => [(k, v)]
  | kv :: rest => if kv.1 == k then (k, v) :: rest else kv :: dSet rest k v

/-- Truthiness of `d.get(k)` (missing keys are falsy `None`). -/
def dTruthy (d : PyDict) (k : String) : Bool :=
  match dGet d k with
  | some v => v.truthy
  | none => false

/-! ## `InvoiceExtractor` (tracker/extraction_utils.py) -/

/-- One loaded extraction rule (`InvoicePatternMatcher` row or built-in
default): regex, 1-based capture group to return, and priority. -/
structure Rule where
  name : String
  regex : RE
  group : Nat
  priority : Nat

/-- A loaded service template (`self.service_templates[name]`):
keywords already split, stripped and lower-cased. -/
structure ServiceTpl where
  keywords : List String
  minutes : Nat
  serviceType : String

/-- The state of an `InvoiceExtractor` after `_load_patterns_from_db`:
`patterns` maps a field type to its loaded rule list (empty when the
configuration had none) and `templates` is the insertion-ordered
service-template catalog. -/
structure Extractor where
  patterns : String → List Rule
  templates : List (String × ServiceTpl)

/-! ### The built-in default patterns (`_default_patterns`) -/

/-- `[\d,]+\.?\d{0,2}` — the numeric-amount token. -/
def numTok : RE :=
  reCat [rePlus (.cls clsDC), reOpt (reChr '.'), .rep 0 (some 2) false (.cls clsD)]

/-- `(?:REFERENCE|REF|Plate|License)[\s:]*([A-Z]{3}\s?[A-Z]?\s?\d+\s?[A-Z]{3})` -/
def pPlateRef : RE :=
  reCat [reAlts [litCI "REFERENCE", litCI "REF", litCI "Plate", litCI "License"],
    reStar (.cls clsWsColon),
    .grp 1 (reCat [.rep 3 (some 3) false (.cls clsAl), reOpt (.cls isPyWs),
      reOpt (.cls clsAl), reOpt (.cls isPyWs), rePlus (.cls clsD),
      reOpt (.cls isPyWs), .rep 3 (some 3) false (.cls clsAl)])]

/-- `(?<![A-Z0-9])([A-Z]{2,3}\s?[A-Z]?\s?(?:\d+\s)?[A-Z]{2,3})(?![A-Z0-9])` -/
def pPlateStd : RE :=
  reCat [.prevNot clsAlnum,
    .grp 1 (reCat [.rep 2 (some 3) false (.cls clsAl), reOpt (.cls isPyWs),
      reOpt (.cls clsAl), reOpt (.cls isPyWs),
      reOpt (reCat [rePlus (.cls clsD), .cls isPyWs]),
      .rep 2 (some 3) false (.cls clsAl)]),
    .nextNot clsAlnum]

/-- `(?:Total|TOTAL|Amount|AMOUNT|Due)[\s:]*([A-Z])?[\s]*([\d,]+\.?\d{0,2})` -/
def pAmountLabeled : RE :=
  reCat [reAlts [litCI "Total", litCI "TOTAL", litCI "Amount", litCI "AMOUNT", litCI "Due"],
    reStar (.cls clsWsColon),
    reOpt (.grp 1 (.cls clsAl)),
    reStar (.cls isPyWs),
    .grp 2 numTok]

/-- `([\d,]+\.?\d{0,2})` -/
def pAmountPlain : RE := .grp 1 numTok

/-- `\d{3}` -/
def d3 : RE := .rep 3 (some 3) false (.cls clsD)

/-- `(?:Phone|Tel|Mobile|Contact)[\s:]*(\+?255\s?\d{3}\s?\d{3}\s?\d{3}|0[67]\d{2}\s?\d{3}\s?\d{3})` -/
def pPhoneTz : RE :=
  reCat [reAlts [litCI "Phone", litCI "Tel", litCI "Mobile", litCI "Contact"],
    reStar (.cls clsWsColon),
    .grp 1 (.alt
      (reCat [reOpt (reChr '+'), litCI "255", reOpt (.cls isPyWs), d3,
        reOpt (.cls isPyWs), d3, reOpt (.cls isPyWs), d3])
      (reCat [reChr '0', .cls (fun c => c == '6' || c == '7'),
        .rep 2 (some 2) false (.cls clsD), reOpt (.cls isPyWs), d3,
        reOpt (.cls isPyWs), d3]))]

/-- `(\+?\d{1,3}\s?\d{2,4}\s?\d{3,4})` -/
def pPhoneGen : RE :=
  .grp 1 (reCat [reOpt (reChr '+'), .rep 1 (some 3) false (.cls clsD),
    reOpt (.cls isPyWs), .rep 2 (some 4) false (.cls clsD),
    reOpt (.cls isPyWs), .rep 3 (some 4) false (.cls clsD)])

/-- `[A-Za-z\s]` -/
def clsNameC (c : Char) : Bool := clsAl c || isPyWs c

/-- `(?:CUSTOMER|Customer|Name)[\s:]*([A-Za-z\s]+?)(?:\n|$|Phone|Tel|Address)` -/
def pCustName : RE :=
  reCat [reAlts [litCI "CUSTOMER", litCI "Customer", litCI "Name"],
    reStar (.cls clsWsColon),
    .grp 1 (rePlusLz (.cls clsNameC)),
    reAlts [reChr '\n', .lineEnd, litCI "Phone", litCI "Tel", litCI "Address"]]

/-- `[a-zA-Z0-9._%+-]` -/
def clsEmailLocal (c : Char) : Bool :=
  c.isAlphanum || c == '.' || c == '_' || c == '%' || c == '+' || c == '-'

/-- `[a-zA-Z0-9.-]` -/
def clsEmailDom (c : Char) : Bool := c.isAlphanum || c == '.' || c == '-'

/-- `([a-zA-Z0-9._%+-]+@[a-zA-Z0-9.-]+\.[a-zA-Z]{2,})` -/
def pEmail : RE :=
  .grp 1 (reCat [rePlus (.cls clsEmailLocal), reChr '@', rePlus (.cls clsEmailDom),
    reChr '.', .rep 2 none false (.cls clsAl)])

/-- `[A-Za-z0-9\s,.-]` -/
def clsSvc (c : Char) : Bool :=
  c.isAlphanum || isPyWs c || c == ',' || c == '.' || c == '-'

/-- `(?:SERVICE|Service|Description|Item|ITEM)[\s:]*([A-Za-z0-9\s,.-]+?)(?:\n|Qty|Quantity|$)` -/
def pService : RE :=
  reCat [reAlts [litCI "SERVICE", litCI "Service", litCI "Description",
      litCI "Item", litCI "ITEM"],
    reStar (.cls clsWsColon),
    .grp 1 (rePlusLz (.cls clsSvc)),
    reAlts [reChr '\n', litCI "Qty", litCI "Quantity", .lineEnd]]

/-- `(?:QTY|Quantity|Qty)[\s:]*(\d+)` -/
def pQuantity : RE :=
  reCat [reAlts [litCI "QTY", litCI "Quantity", litCI "Qty"],
    reStar (.cls clsWsColon), .grp 1 (rePlus (.cls clsD))]

/-- `[\s#:]` -/
def clsWsHashColon (c : Char) : Bool := isPyWs c || c == '#' || c == ':'

/-- `[A-Z0-9-]` (under `re.IGNORECASE`). -/
def clsRefTok (c : Char) : Bool := c.isAlphanum || c == '-'

/-- `(?:REF|Reference|Invoice|INV)[\s#:]*([A-Z0-9-]+)` -/
def pReference : RE :=
  reCat [reAlts [litCI "REF", litCI "Reference", litCI "Invoice", litCI "INV"],
    reStar (.cls clsWsHashColon), .grp 1 (rePlus (.cls clsRefTok))]

/-- `InvoiceExtractor._default_patterns`. -/
def defaultPatterns : String → List Rule
  | "plate_number" =>
    [⟨"Plate in reference field", pPlateRef, 1, 10⟩,
     ⟨"Standard plate format", pPlateStd, 1, 20⟩]
  | "amount" =>
    [⟨"Amount with currency symbol", pAmountLabeled, 2, 10⟩,
     ⟨"Numeric amount", pAmountPlain, 1, 100⟩]
  | "customer_phone" =>
    [⟨"Tanzania phone format", pPhoneTz, 1, 10⟩,
     ⟨"General phone format", pPhoneGen, 1, 20⟩]
  | "customer_name" => [⟨"Name after customer label", pCustName, 1, 10⟩]
  | "customer_email" => [⟨"Email pattern", pEmail, 1, 10⟩]
  | "service_description" => [⟨"Service/description field", pService, 1, 10⟩]
  | "quantity" => [⟨"Quantity field", pQuantity, 1, 10⟩]
  | "reference" => [⟨"Invoice/Reference number", pReference, 1, 10⟩]
  | _ => []

/-! ### Field extraction -/

/-- One iteration of the `extract_field` loop on a single rule:
search, take the configured group, return it stripped when non-empty.
A missing/unparticipated group, a failed search, or an empty group
value all make the loop move on (Python reaches `continue` either via
falsiness or via the swallowed `IndexError`). -/
def evalRule (text : List Char) (r : Rule) : Option String :=
  match reSearch text r.regex with
  | some m =>
    match groupVal text m r.group with
    | some v => if v ≠ [] then some ⟨pyStripL v⟩ else none
    | none => none
  | none => none

/-- The `for pattern_info in patterns` loop of `extract_field`. -/
def firstRuleMatch : List Rule → List Char → Option String
  | [], _ => none
  | r :: rs, text =>
    match evalRule text r with
    | some v => some v
    | none => firstRuleMatch rs text

/-- `self.patterns.get(field_type)` with fallback to
`self._default_patterns().get(field_type, [])` when absent or empty. -/
def patternsFor (ex : Extractor) (ft : String) : List Rule :=
  match ex.patterns ft with
  | [] => defaultPatterns ft
  | l => l

/-- `InvoiceExtractor.extract_field`. -/
def extractField (ex : Extractor) (text : String) (ft : String) : Option String :=
  firstRuleMatch (patternsFor ex ft) text.data

/-- `InvoiceExtractor.extract_amount`: extract the `amount` field, keep
only digits and dots, parse as `Decimal` (`None` on parse failure). -/
def extractAmount (ex : Extractor) (text : String) : Option PyDecimal :=
  match extractField ex text "amount" with
  | none => none
  | some s =>
    if s = "" then none
    else pyDecimalOfChars (s.data.filter (fun c => c.isDigit || c == '.'))

/-- `InvoiceExtractor.match_service_template`: count how many template
keywords occur in the lower-cased description; keep the first template
with the strictly greatest positive count. -/
def matchServiceTemplate (ex : Extractor) (desc : String) : Option (String × Nat) :=
  if desc = "" then none
  else
    let dl := pyLowerL desc.data
    (ex.templates.foldl
      (fun acc nt =>
        let cnt := (nt.2.keywords.filter (fun kw => hasSub dl kw.data)).length
        match acc with
        | some (_, _, bc) => if cnt > bc then some (nt.1, nt.2.minutes, cnt) else acc
        | none => if cnt > 0 then some (nt.1, nt.2.minutes, cnt) else none)
      none).map (fun r => (r.1, r.2.1))

/-- `InvoiceExtractor.extract_all`: the field dictionary (with `None`
values for misses), service-template matching on the extracted
description, and the final `None`-dropping comprehension. -/
def extractAll (ex : Extractor) (text : String) : PyDict :=
  let fields : List (String × Option Val) :=
    [("plate_number", (extractField ex text "plate_number").map .str),
     ("customer_name", (extractField ex text "customer_name").map .str),
     ("customer_phone", (extractField ex text "customer_phone").map .str),
     ("customer_email", (extractField ex text "customer_email").map .str),
     ("service_description", (extractField ex text "service_description").map .str),
     ("item_name", (extractField ex text "service_description").map .str),
     ("quantity", (extractField ex text "quantity").map .str),
     ("amount",
       match extractAmount ex text with
       | some d => if d.coeff ≠ 0 then some (.str (strPyDecimal d)) else Option.none
       | none => Option.none),
     ("reference", (extractField ex text "reference").map .str)]
  let svcMatch :=
    match extractField ex text "service_description" with
    | some s => if s ≠ "" then matchServiceTemplate ex s else Option.none
    | none => Option.none
  let withMatch :=
    fields ++
      (match svcMatch with
       | some nm => [("matched_service", some (.str nm.1)),
                     ("estimated_minutes", some (.natv nm.2))]
       | none => [])
  withMatch.filterMap (fun kv => kv.2.map (fun v => (kv.1, v)))

/-! ### Pattern loading (`_load_patterns_from_db`) -/

/-- An `InvoicePatternMatcher` row of the configuration store. -/
structure PatternRow where
  name : String
  fieldType : String
  regex : RE
  group : Nat
  priority : Nat
  isActive : Bool

/-- Insert into a priority-sorted list (after existing entries of equal
priority). -/
def insertByPrio (r : PatternRow) : List PatternRow → List PatternRow
  | [] => [r]
  | x :: xs =>
    if x.priority ≤ r.priority then x :: insertByPrio r xs else r :: x :: xs

/-- Sort rows ascending by priority (the `order_by('priority')` of the
loading query; relative order of equal priorities is
implementation-defined in the source as well). -/
def sortByPrio : List PatternRow → List PatternRow
  | [] => []
  | x :: xs => insertByPrio x (sortByPrio xs)

/-- `_load_patterns_from_db`: filter active rows, order by priority and
group by field type (appending in query order). -/
def loadPatterns (rows : List PatternRow) (ft : String) : List Rule :=
  ((sortByPrio (rows.filter (fun r => r.isActive))).filter
      (fun r => r.fieldType == ft)).map
    (fun r => ⟨r.name, r.regex, r.group, r.priority⟩)

/-! ## `DocumentExtractor` (tracker/utils/document_extraction.py) -/

/-- `DocumentExtractor._clean_phone`: `re.sub(r'[^0-9+]', '', phone)` —
every character that is neither a digit nor `+` is removed (every `+`
is kept, wherever it occurs). -/
def cleanPhone (s : String) : String :=
  ⟨s.data.filter (fun c => c.isDigit || c == '+')⟩

/-- `[A-Z]` (case-sensitive). -/
def clsUp (c : Char) : Bool := 'A' ≤ c && c ≤ 'Z'

/-- `[A-Z0-9]` (case-sensitive). -/
def plateKeep (c : Char) : Bool := clsUp c || c.isDigit

/-- The anchored match `^([A-Z]+)(\d+)([A-Z]*)$` of `_clean_plate`.
Because the three character classes are disjoint and the pattern is
anchored, the greedy regex decomposition is the unique
letters/digits/letters split, computed here with `takeWhile`. -/
def plateDecomp (l : List Char) : Option (List Char × List Char × List Char) :=
  if l.takeWhile clsUp ≠ [] ∧
      (l.dropWhile clsUp).takeWhile Char.isDigit ≠ [] ∧
      ((l.dropWhile clsUp).dropWhile Char.isDigit).dropWhile clsUp = [] then
    some (l.takeWhile clsUp, (l.dropWhile clsUp).takeWhile Char.isDigit,
      ((l.dropWhile clsUp).dropWhile Char.isDigit).takeWhile clsUp)
  else none

/-- `DocumentExtractor._clean_plate` on char lists: uppercase, strip to
`[A-Z0-9]`, and when the result has the letters/digits/letters shape,
rejoin the non-empty parts with single spaces.  (The `except` fallback
of the source is unreachable: the regex primitives used cannot raise.) -/
def cleanPlateL (l : List Char) : List Char :=
  match plateDecomp ((pyUpperL l).filter plateKeep) with
  | some LDT =>
    LDT.1 ++ ' ' :: LDT.2.1 ++ (if LDT.2.2 = [] then [] else ' ' :: LDT.2.2)
  | none => (pyUpperL l).filter plateKeep

/-- `DocumentExtractor._clean_plate`. -/
def cleanPlate (s : String) : String := ⟨cleanPlateL s.data⟩

/-- Characters removed by `_parse_amount_str`'s first substitution
`re.sub(r'[A-Za-z\$€£¥₹,\s]', '', s)`. -/
def amountStrip (c : Char) : Bool :=
  c.isAlpha || c == '$' || c == '€' || c == '£' || c == '¥' || c == '₹' ||
    c == ',' || isPyWs c

/-- Greedy continuation of `\d+\.?\d*` starting at a digit. -/
def amtTake (l : List Char) : List Char :=
  match l.dropWhile Char.isDigit with
  | '.' :: r2 => l.takeWhile Char.isDigit ++ '.' :: r2.takeWhile Char.isDigit
  | _ => l.takeWhile Char.isDigit

/-- Leftmost match of `-?\d+\.?\d*` (the search inside
`_parse_amount_str`): the first digit run, taking one directly
preceding `-` sign, with an optional fraction. -/
def amtScan : List Char → Option (List Char)
  | [] => none
  | c :: rest =>
    if c = '-' then
      match rest with
      | d :: _ => if d.isDigit then some ('-' :: amtTake rest) else amtScan rest
      | [] => none
    else if c.isDigit then some (amtTake (c :: rest))
    else amtScan rest

/-- `DocumentExtractor._parse_amount_str`: drop letters, currency
symbols, commas and whitespace; turn `(` into a minus sign and drop
`)`; return the first signed decimal number found, else `None`. -/
def parseAmountStr (s : String) : Option String :=
  let s1 := s.data.filter (fun c => ¬ amountStrip c)
  let s2 := (s1.map (fun c => if c = '(' then '-' else c)).filter (fun c => ¬ (c = ')'))
  (amtScan s2).map (fun l => (⟨l⟩ : String))

/-- The fixed keyword vocabulary of `_extract_keywords`. -/
def serviceKeywords : List String :=
  ["service", "maintenance", "repair", "tire", "tyre", "oil",
   "brake", "battery", "alignment", "inspection", "diagnostic",
   "installation", "replacement", "change", "wash", "clean",
   "balance", "rotation", "check", "engine", "transmission"]

/-- `DocumentExtractor._extract_keywords`: the ordered subset of the
vocabulary occurring as substrings of the lower-cased text. -/
def extractKeywords (raw : List Char) : List String :=
  serviceKeywords.filter (fun kw => hasSub (pyLowerL raw) kw.data)

/-! ### `DocumentExtractor.PATTERNS` (used by `_parse_text`)

`_first_match` searches with `re.IGNORECASE | re.MULTILINE`; the
`re.findall` calls for phones, emails, plates, makes and amounts use no
flags and are case-sensitive. -/

/-- `[-.\s]` -/
def clsDashDotWs (c : Char) : Bool := c == '-' || c == '.' || isPyWs c

/-- `(?:\+\d{1,3}[-.\s]?)?\d{3,4}[-.\s]?\d{3,4}[-.\s]?\d{4}` -/
def dpPhone : RE :=
  reCat [reOpt (reCat [reChr '+', .rep 1 (some 3) false (.cls clsD),
      reOpt (.cls clsDashDotWs)]),
    .rep 3 (some 4) false (.cls clsD), reOpt (.cls clsDashDotWs),
    .rep 3 (some 4) false (.cls clsD), reOpt (.cls clsDashDotWs),
    .rep 4 (some 4) false (.cls clsD)]

/-- `[a-zA-Z0-9._%+-]+@[a-zA-Z0-9.-]+\.[A-Za-z]{2,}` (no group). -/
def dpEmail : RE :=
  reCat [rePlus (.cls clsEmailLocal), reChr '@', rePlus (.cls clsEmailDom),
    reChr '.', .rep 2 none false (.cls clsAl)]

/-- `[-\s]` -/
def clsDashWs (c : Char) : Bool := c == '-' || isPyWs c

/-- `[A-Z]{2,3}[-\s]?\d{2,4}[-\s]?[A-Z]{2,3}|\d{2,4}[-\s]?[A-Z]{2,4}` -/
def dpPlate : RE :=
  .alt
    (reCat [.rep 2 (some 3) false (.cls clsUp), reOpt (.cls clsDashWs),
      .rep 2 (some 4) false (.cls clsD), reOpt (.cls clsDashWs),
      .rep 2 (some 3) false (.cls clsUp)])
    (reCat [.rep 2 (some 4) false (.cls clsD), reOpt (.cls clsDashWs),
      .rep 2 (some 4) false (.cls clsUp)])

/-- `(?:\$|SAR|AED|KWD|QAR|OMR|BHD|TSH)?\s*[\d,]+\.?\d*` -/
def dpCurrency : RE :=
  reCat [reOpt (reAlts [reChr '$', litCS "SAR", litCS "AED", litCS "KWD",
      litCS "QAR", litCS "OMR", litCS "BHD", litCS "TSH"]),
    reStar (.cls isPyWs), rePlus (.cls clsDC), reOpt (reChr '.'),
    reStar (.cls clsD)]

/-- `\b(Toyota|Honda|Ford|BMW|Mercedes|Audi|Hyundai|KIA|Nissan|Chevrolet|Volkswagen|Mazda|Lexus|Jeep|Suzuki)\b` -/
def dpMake : RE :=
  reCat [.wordB,
    .grp 1 (reAlts [litCS "Toyota", litCS "Honda", litCS "Ford", litCS "BMW",
      litCS "Mercedes", litCS "Audi", litCS "Hyundai", litCS "KIA",
      litCS "Nissan", litCS "Chevrolet", litCS "Volkswagen", litCS "Mazda",
      litCS "Lexus", litCS "Jeep", litCS "Suzuki"]),
    .wordB]

/-- `[\s#:\-]` -/
def clsWsHashColonDash (c : Char) : Bool :=
  isPyWs c || c == '#' || c == ':' || c == '-'

/-- `\b(?:PI|Invoice|Proforma\s*Invoice)[\s#:\-]*([A-Z0-9-]+)\b` -/
def dpInvoiceNo : RE :=
  reCat [.wordB,
    reAlts [litCI "PI", litCI "Invoice",
      reCat [litCI "Proforma", reStar (.cls isPyWs), litCI "Invoice"]],
    reStar (.cls clsWsHashColonDash), .grp 1 (rePlus (.cls clsRefTok)), .wordB]

/-- `[\/\-]` -/
def clsSlashDash (c : Char) : Bool := c == '/' || c == '-'

/-- `\b(\d{1,2}[\/\-]\d{1,2}[\/\-]\d{2,4})\b` -/
def dpDate : RE :=
  reCat [.wordB,
    .grp 1 (reCat [.rep 1 (some 2) false (.cls clsD), .cls clsSlashDash,
      .rep 1 (some 2) false (.cls clsD), .cls clsSlashDash,
      .rep 2 (some 4) false (.cls clsD)]),
    .wordB]

/-- `(?:Tax\s*ID\s*No\.?|Tax\s*ID)[:\s]*([A-Z0-9-]+)` -/
def dpTaxId : RE :=
  reCat [reAlts [reCat [litCI "Tax", reStar (.cls isPyWs), litCI "ID",
        reStar (.cls isPyWs), litCI "No", reOpt (reChr '.')],
      reCat [litCI "Tax", reStar (.cls isPyWs), litCI "ID"]],
    reStar (.cls clsWsColon), .grp 1 (rePlus (.cls clsRefTok))]

/-- `.` without `re.DOTALL`: anything except a newline. -/
def clsDot (c : Char) : Bool := ¬ (c = '\n')

/-- `(?:VAT\s*Reg\.?.*?)[:\s]*([A-Z0-9-]+)` -/
def dpVatReg : RE :=
  reCat [litCI "VAT", reStar (.cls isPyWs), litCI "Reg", reOpt (reChr '.'),
    .rep 0 none true (.cls clsDot),
    reStar (.cls clsWsColon), .grp 1 (rePlus (.cls clsRefTok))]

/-- `VAT[\s:]*([\d,]+\.?\d{0,2})` -/
def dpVatAmount : RE :=
  reCat [litCI "VAT", reStar (.cls clsWsColon), .grp 1 numTok]

/-- `Gross\s*Value[\s:]*([\d,]+\.?\d{0,2})` -/
def dpGrossValue : RE :=
  reCat [litCI "Gross", reStar (.cls isPyWs), litCI "Value",
    reStar (.cls clsWsColon), .grp 1 numTok]

/-- `Net\s*Value[\s:]*([\d,]+\.?\d{0,2})` -/
def dpNetValue : RE :=
  reCat [litCI "Net", reStar (.cls isPyWs), litCI "Value",
    reStar (.cls clsWsColon), .grp 1 numTok]

/-- `[A-Z0-9 &,.\-\/]` (under `re.IGNORECASE`). -/
def clsCustName (c : Char) : Bool :=
  c.isAlphanum || c == ' ' || c == '&' || c == ',' || c == '.' ||
    c == '-' || c == '/'

/-- `(?:Customer\s*Name|Customer)[:\s]*([A-Z0-9 &,.\-\/]*)` -/
def dpCustomer : RE :=
  reCat [reAlts [reCat [litCI "Customer", reStar (.cls isPyWs), litCI "Name"],
      litCI "Customer"],
    reStar (.cls clsWsColon), .grp 1 (reStar (.cls clsCustName))]

/-- `_parse_text`'s `_first_match`: search and return group 1, stripped. -/
def firstMatch (t : List Char) (re : RE) : Option String :=
  (reSearch t re).bind (fun m => (groupVal t m 1).map (fun v => (⟨pyStripL v⟩ : String)))

/-! ### `DocumentExtractor._extract_items` -/

/-- The header/noise prefixes skipped by `_extract_items`. -/
def headerWords : List String :=
  ["proforma", "invoice", "customer", "address", "tel", "fax", "email",
   "tax", "vat", "page"]

/-- `re.search(r'^(proforma|...|page)\b', line, re.I)`: anchored at the
start of the (single-line) string. -/
def isHeaderLine (l : List Char) : Bool :=
  (matchAt l (reCat [.grp 1 (reAlts (headerWords.map litCI)), .wordB]) 0).isSome

/-- The item-code pattern (case-sensitive): word boundary, three or
more `[A-Z0-9]`, an optional slash or dash, more `[A-Z0-9]`, word
boundary. -/
def itemCodeRe : RE :=
  reCat [.wordB,
    .grp 1 (reCat [.rep 3 none false (.cls plateKeep), reOpt (.cls clsSlashDash),
      reStar (.cls plateKeep)]),
    .wordB]

/-- The numeric tokens of a line: `amount_re.findall(line.replace(',', ''))`
with each token run through `_parse_amount_str` and failures dropped. -/
def lineNums (line : List Char) : List String :=
  (findAllG1 (line.filter (fun c => ¬ (c = ','))) pAmountPlain).filterMap
    (fun a => parseAmountStr (⟨a⟩ : String))

/-- Truthiness of an optional string (`if not value:`). -/
def optTruthy (o : Option String) : Bool :=
  match o with
  | some s => s ≠ ""
  | none => false

/-- The value/rate/qty assignment from a numeric-token list: the last
token becomes `value`, the second-to-last `rate`, the third-to-last
`qty`; absent positions keep their previous contents (mirrors the two
identical `if nums:` blocks of the source). -/
def assignNums (ns : List String) (v r q : Option String) :
    Option String × Option String × Option String :=
  if ns ≠ [] then
    (ns.getLast?,
     if ns.length ≥ 2 then ns.get? (ns.length - 2) else r,
     if ns.length ≥ 3 then ns.get? (ns.length - 3) else q)
  else (v, r, q)

/-- The loop body of `_extract_items` for one (stripped, non-blank)
line: `none` when the line is skipped (header prefix, or lacking a
letter or a digit). -/
def mkItem (allLines : List (List Char)) (idx : Nat) (line : List Char) :
    Option RawItem :=
  if isHeaderLine line then none
  else if (reSearch line (.cls clsAl)).isSome && (reSearch line (.cls clsD)).isSome then
    let code := (reSearch line itemCodeRe).bind
      (fun m => (groupVal line m 1).map (fun v => (⟨v⟩ : String)))
    let vrq := assignNums (lineNums line) none none none
    let vrq :=
      if ¬ optTruthy vrq.1 then
        let lookAhead := List.intercalate [' '] ((allLines.drop idx).take 3)
        assignNums (lineNums lookAhead) vrq.1 vrq.2.1 vrq.2.2
      else vrq
    some ⟨⟨line⟩, code, vrq.2.2, vrq.2.1, vrq.1⟩
  else none

/-- `DocumentExtractor._extract_items`: split into stripped non-blank
lines, run the candidate heuristic per line, and keep only items with a
resolvable `value` or `qty`. -/
def extractItems (text : List Char) : List RawItem :=
  let lines := ((splitNl text).map pyStripL).filter (fun l => l ≠ [])
  let items := lines.enum.filterMap (fun p => mkItem lines p.1 p.2)
  items.filter (fun it => it.value.isSome || it.qty.isSome)

/-! ### `DocumentExtractor._calculate_confidence` -/

/-- Python `len` on the dict values met here (`none` models the
`TypeError` raised on unsized values). -/
def pyLenVal : Val → Option Nat
  | .str s => some s.length
  | .list l => some l.length
  | .rawItems l => some l.length
  | .normItems l => some l.length
  | .none => none
  | .natv _ => none

/-- The fixed category weights of `_calculate_confidence`. -/
def confChecks : List (String × Nat) :=
  [("phone_numbers", 20), ("emails", 20), ("vehicle_plates", 30),
   ("vehicle_makes", 15), ("amounts", 15)]

/-- `DocumentExtractor._calculate_confidence`: award each category's
weight when `len(structured_data.get(field, [])) > 0`, then
`min(100, int(confidence / max_score * 100))` with a zero guard.  The
float expression `int(c / 100 * 100)` equals `c` for every sum `c` of a
subset of the weights (verified case by case against IEEE-754 binary64
rounding), so it is embedded as exact arithmetic. -/
def calcConfidence (d : PyDict) : Option Nat :=
  (confChecks.foldl
    (fun acc kw => acc.bind (fun cm =>
      (pyLenVal ((dGet d kw.1).getD (.list []))).map (fun n =>
        (if n > 0 then cm.1 + kw.2 else cm.1, cm.2 + kw.2))))
    (some (0, 0))).map
    (fun cm => min 100 (if cm.2 > 0 then cm.1 * 100 / cm.2 else 0))

/-! ### `DocumentExtractor._parse_text` -/

/-- `re.sub(r'\r\n|\r', '\n', raw_text)`. -/
def normNl : List Char → List Char
  | [] => []
  | '\r' :: '\n' :: rest => '\n' :: normNl rest
  | '\r' :: rest => '\n' :: normNl rest
  | c :: rest => c :: normNl rest

/-- `Option String` to stored dict value (`_parse_amount_str` results
are stored as-is, so a failed parse stores Python `None`). -/
def optStrVal : Option String → Val
  | some s => .str s
  | none => .none

/-- Conditionally store a header field: `if v: structured[k] = f(v)`. -/
def setIfTruthy (d : PyDict) (k : String) (o : Option String) (f : String → Val) :
    PyDict :=
  match o with
  | some v => if v ≠ "" then dSet d k (f v) else d
  | none => d

/-- Store the stripped keyword-bearing line when one was found (the
service-description loop of `_parse_text`). -/
def setIfFound (d : PyDict) (k : String) (o : Option (List Char)) : PyDict :=
  match o with
  | some ln => dSet d k (.str (⟨pyStripL ln⟩ : String))
  | none => d

/-- `DocumentExtractor._parse_text`: normalise newlines and tabs,
extract the header fields, category lists, line items, amounts,
keywords and the keyword-bearing service-description line.
(`list(set(makes))` has unspecified order in Python; it is modelled as
first-occurrence order.  The service-description loop is modelled by
the first keyword-bearing line: a keyword is non-blank, so that line's
strip is truthy and the source's `break` fires exactly there.) -/
def parseText (raw : String) : PyDict :=
  let t := (normNl raw.data).map (fun c => if c = '\t' then ' ' else c)
  let d : PyDict := []
  let d := setIfTruthy d "invoice_no" (firstMatch t dpInvoiceNo) .str
  let d := setIfTruthy d "date" (firstMatch t dpDate) .str
  let taxId :=
    match firstMatch t dpTaxId with
    | some v => if v ≠ "" then some v else firstMatch t dpVatReg
    | none => firstMatch t dpVatReg
  let d := setIfTruthy d "tax_id" taxId .str
  let d := setIfTruthy d "vat_amount" (firstMatch t dpVatAmount)
    (fun v => optStrVal (parseAmountStr v))
  let d := setIfTruthy d "gross_value" (firstMatch t dpGrossValue)
    (fun v => optStrVal (parseAmountStr v))
  let d := setIfTruthy d "net_value" (firstMatch t dpNetValue)
    (fun v => optStrVal (parseAmountStr v))
  let d := setIfTruthy d "customer_name" (firstMatch t dpCustomer) .str
  let phones := findAll t dpPhone
  let d := if phones ≠ [] then
      dSet d "phone_numbers" (.list (phones.map (fun p => cleanPhone (⟨p⟩ : String))))
    else d
  let emails := (findAll t dpEmail).map (fun l => (⟨l⟩ : String))
  let d := if emails ≠ [] then dSet d "emails" (.list (pyDedup emails)) else d
  let plates := findAll t dpPlate
  let d := if plates ≠ [] then
      dSet d "vehicle_plates" (.list (plates.map (fun p => cleanPlate (⟨p⟩ : String))))
    else d
  let makes := (findAllG1 t dpMake).map (fun l => (⟨l⟩ : String))
  let d := if makes ≠ [] then dSet d "vehicle_makes" (.list (pyDedup makes)) else d
  let items := extractItems t
  let d := if items ≠ [] then dSet d "items" (.rawItems items) else d
  let amounts := findAll t dpCurrency
  let d := if amounts ≠ [] then
      dSet d "amounts"
        (.list (amounts.filterMap (fun a => parseAmountStr (⟨a⟩ : String))))
    else d
  let kws := extractKeywords t
  let d := dSet d "keywords" (.list kws)
  let svcLine := (splitNl t).find?
    (fun ln => kws.any (fun kw => hasSub (pyLowerL ln) kw.data))
  setIfFound d "service_description" svcLine

/-! ## The extraction orchestrator (`process_invoice_extraction`)

The external pieces — the PDF library behind `extract_from_file`, the
filesystem path resolution, and the raw `utf-8` fallback read — are
abstracted into the document model; everything downstream of the raw
text is the embedded code. -/

/-- Outcome of the external PDF text-retrieval library on a document
(`_extract_from_pdf` wraps every library failure into an error
result). -/
inductive PdfOutcome where
  | ok (raw : String)
  | err (msg : String)

/-- A `DocumentScan` as the orchestrator sees it: the uploaded file
name, the PDF library's outcome, whether resolving the upload to a
filesystem path raised (forcing the `utf-8` fallback), and the fallback
decode result. -/
structure DocumentScan where
  fileName : String
  pdf : PdfOutcome
  acquireRaised : Bool
  utf8 : Option String

/-- The result dict of `DocumentExtractor.extract_from_file`. -/
structure ExtractResult where
  success : Bool
  rawText : String
  structured : PyDict
  error : Option String

/-- `pathlib.Path(name).suffix`: the final dotted extension of the last
path component (empty for dotless or dot-leading names). -/
def fileSuffix (name : String) : String :=
  let base := ((name.splitOn "/").getLastD "").data
  let afterDotRev := base.reverse.takeWhile (fun c => ¬ (c = '.'))
  let upToDotRev := base.reverse.dropWhile (fun c => ¬ (c = '.'))
  match upToDotRev with
  | [] => ""
  | _ :: [] => ""
  | _ :: _ :: _ => ⟨'.' :: afterDotRev.reverse⟩

/-- The error message of `_extract_from_image` (OCR is disabled). -/
def ocrMsg : String :=
  "OCR disabled: image-to-text extraction is not available. Please provide a PDF or text-based document instead."

/-- `DocumentExtractor.extract_from_file`: dispatch on the lower-cased
suffix; a PDF yields the library's text with `_parse_text` structured
data, images yield the OCR-disabled error, anything else the
unsupported-type error. -/
def extractFromFile (doc : DocumentScan) : ExtractResult :=
  let ext := pyLowerS (fileSuffix doc.fileName)
  if ext = ".pdf" then
    match doc.pdf with
    | .ok raw => ⟨true, raw, parseText raw, none⟩
    | .err m => ⟨false, "", [], some m⟩
  else if [".jpg", ".jpeg", ".png", ".bmp", ".tiff"].contains ext then
    ⟨false, "", [], some ocrMsg⟩
  else ⟨false, "", [], some ("Unsupported file type: " ++ ext)⟩

/-- One iteration of the orchestrator's merge loop over
`doc_struct.items()`: fill gaps with truthy collaborator values;
concatenate-and-dedupe when both sides hold (string) lists.  (The other
`isinstance(..., list)` combinations cannot arise: `extract_all` output
never holds lists, and each key is visited once.) -/
def mergeStep (m : PyDict) (kv : String × Val) : PyDict :=
  if ¬ dTruthy m kv.1 ∧ kv.2.truthy then dSet m kv.1 kv.2
  else
    match kv.2, dGet m kv.1 with
    | .list l2, some (.list l1) => dSet m kv.1 (.list (pyDedup (l1 ++ l2)))
    | _, _ => m

/-- The orchestrator's `_to_decimal` on the raw string item fields:
strip commas and whitespace, parse as `Decimal`, `None` on failure. -/
def toDecimalOpt (o : Option String) : Option PyDecimal :=
  match o with
  | none => none
  | some s => pyDecimalOfChars (pyStripL (s.data.filter (fun c => ¬ (c = ','))))

/-- The orchestrator's item normalisation: 1-based line numbers,
empty-string code/description become `None`, numeric fields parsed to
decimals (raw items carry no `unit` key). -/
def normalizeItems (items : List RawItem) : List NormItem :=
  items.enum.map (fun p =>
    let code := pyStrip (p.2.code.getD "")
    let desc := pyStrip p.2.description
    { lineNo := p.1 + 1,
      code := if code = "" then none else some code,
      descr := if desc = "" then none else some desc,
      qty := toDecimalOpt p.2.qty,
      unit := none,
      rate := toDecimalOpt p.2.rate,
      value := toDecimalOpt p.2.value })

/-- `Code\s*No\s*[:\-]?\s*([A-Z0-9-]+)` -/
def codeNoRe : RE :=
  reCat [litCI "Code", reStar (.cls isPyWs), litCI "No", reStar (.cls isPyWs),
    reOpt (.cls (fun c => c == ':' || c == '-')), reStar (.cls isPyWs),
    .grp 1 (rePlus (.cls clsRefTok))]

/-- `Reference\s*[:\-]?\s*([A-Z0-9\s-]{3,30})` -/
def referenceRe : RE :=
  reCat [litCI "Reference", reStar (.cls isPyWs),
    reOpt (.cls (fun c => c == ':' || c == '-')), reStar (.cls isPyWs),
    .grp 1 (.rep 3 (some 30) false
      (.cls (fun c => c.isAlphanum || isPyWs c || c == '-')))]

/-- `FOR\s+([A-Z0-9\s]+)` -/
def forRe : RE :=
  reCat [litCI "FOR", rePlus (.cls isPyWs),
    .grp 1 (rePlus (.cls (fun c => c.isAlphanum || isPyWs c)))]

/-- `VAT\s*[:\s]*([\d,]+\.?\d{0,2})` (the orchestrator's totals regex). -/
def vatTotalRe : RE :=
  reCat [litCI "VAT", reStar (.cls isPyWs), reStar (.cls clsWsColon),
    .grp 1 numTok]

/-- `Net\s*Value\s*[:\s]*([\d,]+\.?\d{0,2})` -/
def netTotalRe : RE :=
  reCat [litCI "Net", reStar (.cls isPyWs), litCI "Value",
    reStar (.cls isPyWs), reStar (.cls clsWsColon), .grp 1 numTok]

/-- `Gross\s*Value\s*[:\s]*([\d,]+\.?\d{0,2})` -/
def grossTotalRe : RE :=
  reCat [litCI "Gross", reStar (.cls isPyWs), litCI "Value",
    reStar (.cls isPyWs), reStar (.cls clsWsColon), .grp 1 numTok]

/-- Search `text` and store the stripped group 1 under `k` when the key
is still falsy (`if not merged.get(k): ... if m: merged[k] = ...`). -/
def enrichIfMissing (m : PyDict) (k : String) (t : List Char) (re : RE) : PyDict :=
  if ¬ dTruthy m k then
    match reSearch t re with
    | some mm =>
      match groupVal t mm 1 with
      | some v => dSet m k (.str (⟨pyStripL v⟩ : String))
      | none => m
    | none => m
  else m

/-- Store group 1 with commas removed and stripped when the search
matches (the totals enrichment; unconditional overwrite). -/
def setTotal (m : PyDict) (k : String) (t : List Char) (re : RE) : PyDict :=
  match reSearch t re with
  | some mm =>
    match groupVal t mm 1 with
    | some v =>
      dSet m k (.str (⟨pyStripL (v.filter (fun c => ¬ (c = ',')))⟩ : String))
    | none => m
  | none => m

/-- `merged.get(k)` when truthy (one link of the source's `or` chain). -/
def pickTruthy (m : PyDict) (k : String) : Option Val :=
  match dGet m k with
  | some v => if v.truthy then some v else none
  | none => none

/-- The reference-to-plate heuristic: when `reference` holds a truthy
string and `plate_number` is still missing, search the reference for
`FOR <plate>`. -/
def forStep (m : PyDict) : PyDict :=
  match dGet m "reference" with
  | some (.str rs) =>
    if (Val.str rs).truthy ∧ ¬ dTruthy m "plate_number" then
      match reSearch rs.data forRe with
      | some mm =>
        match groupVal rs.data mm 1 with
        | some v => dSet m "plate_number" (.str (⟨pyStripL v⟩ : String))
        | none => m
      | none => m
    else m
  | _ => m

/-- The plate backfill from the collaborator's `vehicle_plates` list. -/
def plateFromDocStep (docStruct m : PyDict) : PyDict :=
  if ¬ dTruthy m "plate_number" then
    match dGet docStruct "vehicle_plates" with
    | some (.list (p :: _)) => dSet m "plate_number" (.str p)
    | _ => m
  else m

/-- Item consolidation and normalisation: prefer the merged items,
then the collaborator's, then a fresh `_extract_items` run; store the
decimal-normalised list when non-empty. -/
def itemsStep (docStruct : PyDict) (td : List Char) (m : PyDict) : PyDict :=
  let items : List RawItem :=
    match dGet m "items" with
    | some (.rawItems l) => l
    | _ =>
      match dGet docStruct "items" with
      | some (.rawItems l) => l
      | _ => extractItems td
  let normalized := normalizeItems items
  if normalized ≠ [] then dSet m "items" (.normItems normalized) else m

/-- The final service-template match over
`service_description or item_name or description`. -/
def svcStep (ex : Extractor) (m : PyDict) : PyDict :=
  let svcDesc := (pickTruthy m "service_description").orElse
    (fun _ => (pickTruthy m "item_name").orElse
      (fun _ => pickTruthy m "description"))
  match svcDesc with
  | some (.str s) =>
    (match matchServiceTemplate ex s with
     | some nm =>
       dSet (dSet m "matched_service" (.str nm.1)) "estimated_minutes" (.natv nm.2)
     | none => m)
  | _ => m

/-- The success branch of the orchestrator (`result.get('success')`
true): merge the structured collaborator data into `extract_all`'s
fields, then enrich (raw text, code number, reference, plate
heuristics, item normalisation, totals, service template). -/
def pathA (ex : Extractor) (text : String) (docStruct : PyDict) : PyDict :=
  let td := text.data
  let invoiceFields := extractAll ex text
  let merged := docStruct.foldl mergeStep invoiceFields
  let merged := dSet merged "raw_text" (.str (⟨td.take 10000⟩ : String))
  let merged := enrichIfMissing merged "code_no" td codeNoRe
  let merged := enrichIfMissing merged "reference" td referenceRe
  let merged := forStep merged
  let merged := plateFromDocStep docStruct merged
  let merged := itemsStep docStruct td merged
  let merged := setTotal merged "vat_amount" td vatTotalRe
  let merged := setTotal merged "net_value" td netTotalRe
  let merged := setTotal merged "gross_value" td grossTotalRe
  svcStep ex merged

/-- The fallback branch (`'result' not in locals()`): plain
`extract_all` plus truncated raw text. -/
def pathB (ex : Extractor) (text : String) : PyDict :=
  dSet (extractAll ex text) "raw_text" (.str (⟨text.data.take 5000⟩ : String))

/-- The image-upload error message of the orchestrator. -/
def imgMsg : String :=
  "Image extraction disabled. Please upload a PDF or text-based document."

/-- `document_scan.file.name.lower().endswith(('.png', '.jpg', '.jpeg', '.gif', '.bmp'))` -/
def isImageName (name : String) : Bool :=
  [".png", ".jpg", ".jpeg", ".gif", ".bmp"].any
    (fun e => pyEndsWith (pyLowerS name) e)

/-- `process_invoice_extraction`: image uploads are rejected outright;
otherwise text is acquired (PDF extractor, or the `utf-8` fallback when
path resolution raised), failures become `{'error': ...}`, and the
success/fallback merge paths build the field map.  The Lean embedding
is total, mirroring the orchestrator's catch-all boundary. -/
def processInvoiceExtraction (ex : Extractor) (doc : DocumentScan) : PyDict :=
  if isImageName doc.fileName then [("error", .str imgMsg)]
  else if doc.acquireRaised then
    match doc.utf8 with
    | some text => pathB ex text
    | none => [("error", .str "Could not extract text from document")]
  else
    let r := extractFromFile doc
    if r.success then pathA ex r.rawText r.structured
    else [("error", .str (r.error.getD "Extraction failed"))]

/-! ## Matcher lemmas -/

theorem mrun_none_of_k_none (t : List Char) :
    ∀ (fuel : Nat) (re : RE) (pos : Nat) (caps : List Cap)
      (k : Nat → List Cap → Option (Nat × List Cap)),
      (∀ p c, k p c = none) → mrun t fuel re pos caps k = none := by
  intro fuel
  induction fuel with
  | zero => intro re pos caps k _; rfl
  | succ n ih =>
    intro re pos caps k hk
    cases re with
    | eps => exact hk _ _
    | cls p =>
      simp only [mrun]
      cases t.get? pos with
      | none => rfl
      | some c =>
        simp only
        split
        · exact hk _ _
        · rfl
    | seq a b => exact ih a _ _ _ (fun p c => ih b _ _ _ hk)
    | alt a b =>
      simp only [mrun]
      rw [ih a _ _ _ hk, ih b _ _ _ hk]
    | rep lo hi lz a =>
      simp only [mrun]
      split
      · exact ih a _ _ _ (fun p c => ih _ _ _ _ hk)
      · split
        · exact hk _ _
        · split
          · rw [hk, ih a _ _ _ (fun p c => ih _ _ _ _ hk)]
          · rw [ih a _ _ _ (fun p c => ih _ _ _ _ hk), hk]
    | grp i a => exact ih a _ _ _ (fun p c => hk _ _)
    | prevNot p =>
      cases pos with
      | zero => exact hk _ _
      | succ q =>
        simp only [mrun]
        cases t.get? q with
        | none => exact hk _ _
        | some c =>
          simp only
          split
          · rfl
          · exact hk _ _
    | nextNot p =>
      simp only [mrun]
      cases t.get? pos with
      | none => exact hk _ _
      | some c =>
        simp only
        split
        · rfl
        · exact hk _ _
    | lineEnd =>
      simp only [mrun]
      cases t.get? pos with
      | none => exact hk _ _
      | some c =>
        simp only
        split
        · exact hk _ _
        · rfl
    | wordB =>
      simp only [mrun]
      split
      · exact hk _ _
      · rfl

/-- Does every successful match of `re` have to consume a
non-whitespace character?  (Conservative syntactic check: the `cls`
case asks that the class reject all six whitespace characters.) -/
def needsNonWs : RE → Bool
  | .eps => false
  | .cls p =>
    !(p ' ' || p '\t' || p '\n' || p '\x0b' || p '\x0c' || p '\r')
  | .seq a b => needsNonWs a || needsNonWs b
  | .alt a b => needsNonWs a && needsNonWs b
  | .rep lo _ _ a => decide (0 < lo) && needsNonWs a
  | .grp _ a => needsNonWs a
  | .prevNot _ => false
  | .nextNot _ => false
  | .lineEnd => false
  | .wordB => false

theorem mrun_none_of_ws (t : List Char) (hws : ∀ c ∈ t, isPyWs c = true) :
    ∀ (fuel : Nat) (re : RE), needsNonWs re = true →
      ∀ (pos : Nat) (caps : List Cap)
        (k : Nat → List Cap → Option (Nat × List Cap)),
        mrun t fuel re pos caps k = none := by
  intro fuel
  induction fuel with
  | zero => intro re _ pos caps k; rfl
  | succ n ih =>
    intro re hre pos caps k
    cases re with
    | eps => simp [needsNonWs] at hre
    | cls p =>
      simp only [mrun]
      cases hg : t.get? pos with
      | none => rfl
      | some c =>
        have hc : isPyWs c = true := hws c (List.get?_mem hg)
        have hp : p c = false := by
          have hre' : (p ' ' || p '\t' || p '\n' || p '\x0b' || p '\x0c' || p '\r') = false := by
            simpa [needsNonWs] using hre
          simp only [Bool.or_eq_false_iff] at hre'
          simp only [isPyWs, Bool.or_eq_true, beq_iff_eq] at hc
          rcases hc with ((((h | h) | h) | h) | h) | h <;> rw [h]
          · exact hre'.1.1.1.1.1
          · exact hre'.1.1.1.1.2
          · exact hre'.1.1.1.2
          · exact hre'.1.1.2
          · exact hre'.1.2
          · exact hre'.2
        simp [hp]
    | seq a b =>
      simp only [needsNonWs, Bool.or_eq_true] at hre
      rcases hre with ha | hb
      · exact ih a ha _ _ _
      · exact mrun_none_of_k_none t _ a _ _ _ (fun p c => ih b hb _ _ _)
    | alt a b =>
      simp only [needsNonWs, Bool.and_eq_true] at hre
      simp only [mrun]
      rw [ih a hre.1 _ _ _, ih b hre.2 _ _ _]
    | rep lo hi lz a =>
      simp only [needsNonWs, Bool.and_eq_true, decide_eq_true_eq] at hre
      simp only [mrun]
      split
      · exact ih a hre.2 _ _ _
      · omega
    | grp i a =>
      simp only [needsNonWs] at hre
      exact ih a hre _ _ _
    | prevNot p => simp [needsNonWs] at hre
    | nextNot p => simp [needsNonWs] at hre
    | lineEnd => simp [needsNonWs] at hre
    | wordB => simp [needsNonWs] at hre

theorem matchAt_none_of_ws (t : List Char) (hws : ∀ c ∈ t, isPyWs c = true)
    (re : RE) (hre : needsNonWs re = true) (pos : Nat) :
    matchAt t re pos = none :=
  mrun_none_of_ws t hws (reFuel t) re hre pos [] _

theorem searchFrom_none_of_ws (t : List Char) (hws : ∀ c ∈ t, isPyWs c = true)
    (re : RE) (hre : needsNonWs re = true) :
    ∀ fuel pos, searchFrom t re pos fuel = none := by
  intro fuel
  induction fuel with
  | zero => intro pos; rfl
  | succ n ih =>
    intro pos
    simp only [searchFrom, matchAt_none_of_ws t hws re hre pos]
    split
    · exact ih _
    · rfl

theorem reSearch_none_of_ws (t : List Char) (hws : ∀ c ∈ t, isPyWs c = true)
    (re : RE) (hre : needsNonWs re = true) : reSearch t re = none :=
  searchFrom_none_of_ws t hws re hre _ _

theorem findAllFrom_nil_of_ws (t : List Char) (hws : ∀ c ∈ t, isPyWs c = true)
    (re : RE) (hre : needsNonWs re = true) :
    ∀ fuel pos, findAllFrom t re pos fuel = [] := by
  intro fuel
  induction fuel with
  | zero => intro pos; rfl
  | succ n ih =>
    intro pos
    simp only [findAllFrom, matchAt_none_of_ws t hws re hre pos]
    split
    · exact ih _
    · rfl

theorem findAll_nil_of_ws (t : List Char) (hws : ∀ c ∈ t, isPyWs c = true)
    (re : RE) (hre : needsNonWs re = true) : findAll t re = [] :=
  findAllFrom_nil_of_ws t hws re hre _ _

theorem findAllG1From_nil_of_ws (t : List Char) (hws : ∀ c ∈ t, isPyWs c = true)
    (re : RE) (hre : needsNonWs re = true) :
    ∀ fuel pos, findAllG1From t re pos fuel = [] := by
  intro fuel
  induction fuel with
  | zero => intro pos; rfl
  | succ n ih =>
    intro pos
    simp only [findAllG1From, matchAt_none_of_ws t hws re hre pos]
    split
    · exact ih _
    · rfl

theorem findAllG1_nil_of_ws (t : List Char) (hws : ∀ c ∈ t, isPyWs c = true)
    (re : RE) (hre : needsNonWs re = true) : findAllG1 t re = [] :=
  findAllG1From_nil_of_ws t hws re hre _ _

/-- A successful single-class match means the class holds at `pos`. -/
theorem mrun_cls_some (t : List Char) (p : Char → Bool) :
    ∀ fuel pos caps k r, mrun t fuel (.cls p) pos caps k = some r →
      ∃ c, t.get? pos = some c ∧ p c = true := by
  intro fuel
  cases fuel with
  | zero => intro pos caps k r h; simp [mrun] at h
  | succ n =>
    intro pos caps k r h
    simp only [mrun] at h
    cases hg : t.get? pos with
    | none => rw [hg] at h; simp at h
    | some c =>
      rw [hg] at h
      simp only at h
      by_cases hp : p c = true
      · exact ⟨c, rfl, hp⟩
      · rw [Bool.not_eq_true] at hp
        rw [hp] at h
        simp at h

/-- A successful single-class search means some character of the text
satisfies the class. -/
theorem reSearch_cls_some (t : List Char) (p : Char → Bool) (r : Nat × Nat × List Cap)
    (h : reSearch t (.cls p) = some r) : ∃ c ∈ t, p c = true := by
  unfold reSearch at h
  revert h
  generalize 0 = pos0
  generalize t.length + 1 = fuel
  induction fuel generalizing pos0 with
  | zero => intro h; simp [searchFrom] at h
  | succ n ih =>
    intro h
    simp only [searchFrom] at h
    cases hm : matchAt t (.cls p) pos0 with
    | some me =>
      obtain ⟨c, hg, hp⟩ := mrun_cls_some t p _ _ _ _ _ hm
      exact ⟨c, List.get?_mem hg, hp⟩
    | none =>
      rw [hm] at h
      simp only at h
      split at h
      · exact ih _ h
      · simp at h

/-! ## Substring and whitespace lemmas -/

theorem leadsWith_subset :
    ∀ needle hay : List Char, leadsWith needle hay = true →
      ∀ c ∈ needle, c ∈ hay := by
  intro needle
  induction needle with
  | nil => intro hay _ c hc; simp at hc
  | cons a as ih =>
    intro hay h c hc
    cases hay with
    | nil => simp [leadsWith] at h
    | cons b bs =>
      simp only [leadsWith, Bool.and_eq_true, beq_iff_eq] at h
      rcases List.mem_cons.mp hc with rfl | hc
      · rw [h.1]; exact List.mem_cons_self _ _
      · exact List.mem_cons_of_mem _ (ih bs h.2 c hc)

theorem hasSub_subset :
    ∀ hay needle : List Char, hasSub hay needle = true →
      ∀ c ∈ needle, c ∈ hay := by
  intro hay
  induction hay with
  | nil =>
    intro needle h c hc
    cases needle with
    | nil => simp at hc
    | cons a as => simp [hasSub, leadsWith] at h
  | cons b bs ih =>
    intro needle h c hc
    simp only [hasSub, Bool.or_eq_true] at h
    rcases h with h | h
    · exact leadsWith_subset needle (b :: bs) h c hc
    · exact List.mem_cons_of_mem _ (ih needle h c hc)

theorem pyStripL_nil_of_ws (l : List Char) (hws : ∀ c ∈ l, isPyWs c = true) :
    pyStripL l = [] := by
  unfold pyStripL
  have h1 : l.dropWhile isPyWs = [] := by
    rw [List.dropWhile_eq_nil_iff]
    exact hws
  rw [h1]
  rfl

theorem splitNl_mem_subset :
    ∀ (l : List Char) (piece : List Char), piece ∈ splitNl l →
      ∀ c ∈ piece, c ∈ l := by
  intro l
  induction l with
  | nil =>
    intro piece hp c hc
    simp only [splitNl, List.mem_singleton] at hp
    subst hp
    simp at hc
  | cons a as ih =>
    intro piece hp c hc
    simp only [splitNl] at hp
    split at hp
    · rcases List.mem_cons.mp hp with rfl | hp
      · simp at hc
      · exact List.mem_cons_of_mem _ (ih piece hp c hc)
    · revert hp
      cases hs : splitNl as with
      | nil =>
        intro hp
        simp only [List.mem_singleton] at hp
        subst hp
        exact List.mem_cons.mpr (Or.inl (by simpa using hc))
      | cons h2 t2 =>
        intro hp
        rcases List.mem_cons.mp hp with rfl | hp
        · rcases List.mem_cons.mp hc with rfl | hc
          · exact List.mem_cons_self _ _
          · have : h2 ∈ splitNl as := by rw [hs]; exact List.mem_cons_self _ _
            exact List.mem_cons_of_mem _ (ih h2 this c hc)
        · have : piece ∈ splitNl as := by rw [hs]; exact List.mem_cons_of_mem _ hp
          exact List.mem_cons_of_mem _ (ih piece this c hc)

theorem normNl_ws (l : List Char) (hws : ∀ c ∈ l, isPyWs c = true) :
    ∀ c ∈ normNl l, isPyWs c = true := by
  induction l using normNl.induct with
  | case1 => intro c hc; simp [normNl] at hc
  | case2 rest ih =>
    intro c hc
    simp only [normNl, List.mem_cons] at hc
    rcases hc with rfl | hc
    · rfl
    · exact ih (fun c hc => hws c (by simp [hc])) c hc
  | case3 rest hne ih =>
    intro c hc
    simp only [normNl, List.mem_cons] at hc
    rcases hc with rfl | hc
    · rfl
    · exact ih (fun c hc => hws c (by simp [hc])) c hc
  | case4 a rest h1 h2 ih =>
    intro c hc
    simp only [normNl, List.mem_cons] at hc
    rcases hc with rfl | hc
    · exact hws c (List.mem_cons_self _ _)
    · exact ih (fun c hc => hws c (by simp [hc])) c hc

theorem toLower_ws (c : Char) (h : isPyWs c = true) :
    isPyWs c.toLower = true := by
  simp only [isPyWs, Bool.or_eq_true, beq_iff_eq] at h
  rcases h with ((((h | h) | h) | h) | h) | h <;> subst h <;> decide

theorem firstMatch_none_of_ws (t : List Char) (re : RE)
    (hws : ∀ c ∈ t, isPyWs c = true) (hre : needsNonWs re = true) :
    firstMatch t re = none := by
  unfold firstMatch
  rw [reSearch_none_of_ws t hws re hre]
  rfl

theorem extractItems_nil_of_ws (t : List Char)
    (hws : ∀ c ∈ t, isPyWs c = true) : extractItems t = [] := by
  unfold extractItems
  have hlines : ((splitNl t).map pyStripL).filter (fun l => l ≠ []) = [] := by
    rw [List.filter_eq_nil]
    intro piece hp
    obtain ⟨p0, hp0, rfl⟩ := List.mem_map.mp hp
    have : pyStripL p0 = [] :=
      pyStripL_nil_of_ws p0 (fun c hc => hws c (splitNl_mem_subset t p0 hp0 c hc))
    simp [this]
  rw [hlines]
  rfl

theorem hasSub_false_of_nonws (hay needle : List Char)
    (hws : ∀ c ∈ hay, isPyWs c = true)
    (c : Char) (hc : c ∈ needle) (hnc : isPyWs c = false) :
    hasSub hay needle = false := by
  by_contra h
  rw [Bool.not_eq_false] at h
  have := hws c (hasSub_subset hay needle h c hc)
  rw [hnc] at this
  exact Bool.false_ne_true this

theorem extractKeywords_nil_of_ws (t : List Char)
    (hws : ∀ c ∈ t, isPyWs c = true) : extractKeywords t = [] := by
  have hall : serviceKeywords.all (fun kw => kw.data.any (fun c => !(isPyWs c))) = true := by
    decide
  rw [List.all_eq_true] at hall
  unfold extractKeywords
  rw [List.filter_eq_nil]
  intro kw hkw
  have h2 := hall kw hkw
  rw [List.any_eq_true] at h2
  obtain ⟨c, hc, hnc⟩ := h2
  rw [Bool.not_eq_true'] at hnc
  have hl : ∀ c' ∈ pyLowerL t, isPyWs c' = true := by
    intro c' hcl
    obtain ⟨c0, hc0, rfl⟩ := List.mem_map.mp hcl
    exact toLower_ws c0 (hws c0 hc0)
  simp [hasSub_false_of_nonws (pyLowerL t) kw.data hl c hc hnc]

theorem parseText_ws (raw : String) (hws : ∀ c ∈ raw.data, isPyWs c = true) :
    parseText raw = [("keywords", Val.list [])] := by
  have hT : ∀ c ∈ (normNl raw.data).map (fun c => if c = '\t' then ' ' else c),
      isPyWs c = true := by
    intro c hc
    obtain ⟨c0, hc0, rfl⟩ := List.mem_map.mp hc
    have h0 := normNl_ws raw.data hws c0 hc0
    by_cases ht : c0 = '\t'
    · simp only [if_pos ht]; decide
    · simp only [if_neg ht]
      exact h0
  unfold parseText
  simp only [firstMatch_none_of_ws _ dpInvoiceNo hT (by decide),
    firstMatch_none_of_ws _ dpDate hT (by decide),
    firstMatch_none_of_ws _ dpTaxId hT (by decide),
    firstMatch_none_of_ws _ dpVatReg hT (by decide),
    firstMatch_none_of_ws _ dpVatAmount hT (by decide),
    firstMatch_none_of_ws _ dpGrossValue hT (by decide),
    firstMatch_none_of_ws _ dpNetValue hT (by decide),
    firstMatch_none_of_ws _ dpCustomer hT (by decide),
    findAll_nil_of_ws _ hT dpPhone (by decide),
    findAll_nil_of_ws _ hT dpEmail (by decide),
    findAll_nil_of_ws _ hT dpPlate (by decide),
    findAll_nil_of_ws _ hT dpCurrency (by decide),
    findAllG1_nil_of_ws _ hT dpMake (by decide),
    extractItems_nil_of_ws _ hT,
    extractKeywords_nil_of_ws _ hT,
    setIfTruthy]
  have hfind : ((splitNl ((normNl raw.data).map (fun c => if c = '\t' then ' ' else c))).find?
      (fun ln => ([] : List String).any (fun kw => hasSub (pyLowerL ln) kw.data))) = none := by
    rw [List.find?_eq_none]
    intro ln _
    simp
  rw [hfind]
  rfl

/-! ## Dictionary key inventories -/

/-- Every key of `d` lies in the inventory `K`. -/
def KeysSub (d : PyDict) (K : List String) : Prop := ∀ kv ∈ d, kv.1 ∈ K

/-- The keys `extract_all` can emit. -/
def eaKeys : List String :=
  ["plate_number", "customer_name", "customer_phone", "customer_email",
   "service_description", "item_name", "quantity", "amount", "reference",
   "matched_service", "estimated_minutes"]

/-- The keys `_parse_text` can emit. -/
def ptKeys : List String :=
  ["invoice_no", "date", "tax_id", "vat_amount", "gross_value", "net_value",
   "customer_name", "phone_numbers", "emails", "vehicle_plates",
   "vehicle_makes", "items", "amounts", "keywords", "service_description"]

/-- The keys the orchestrator's merged result can contain. -/
def pieKeys : List String := eaKeys ++ ptKeys ++ ["raw_text", "code_no"]

theorem keysSub_nil (K : List String) : KeysSub [] K := by
  intro kv hkv
  simp at hkv

theorem keysSub_weaken {d : PyDict} {K K' : List String}
    (hd : KeysSub d K) (hKK : ∀ x ∈ K, x ∈ K') : KeysSub d K' :=
  fun kv hkv => hKK _ (hd kv hkv)

theorem mem_dSet {d : PyDict} {k : String} {v : Val} :
    ∀ kv ∈ dSet d k v, kv = (k, v) ∨ kv ∈ d := by
  induction d with
  | nil =>
    intro kv hkv
    simp only [dSet, List.mem_singleton] at hkv
    exact Or.inl hkv
  | cons hd0 tl ih =>
    intro kv hkv
    simp only [dSet] at hkv
    split at hkv
    · rcases List.mem_cons.mp hkv with rfl | hkv
      · exact Or.inl rfl
      · exact Or.inr (List.mem_cons_of_mem _ hkv)
    · rcases List.mem_cons.mp hkv with rfl | hkv
      · exact Or.inr (List.mem_cons_self _ _)
      · rcases ih kv hkv with h | h
        · exact Or.inl h
        · exact Or.inr (List.mem_cons_of_mem _ h)

theorem keysSub_dSet {d : PyDict} {K : List String} {k : String} {v : Val}
    (hd : KeysSub d K) (hk : k ∈ K) : KeysSub (dSet d k v) K := by
  intro kv hkv
  rcases mem_dSet kv hkv with rfl | h
  · exact hk
  · exact hd kv h

theorem keysSub_condSet {d : PyDict} {K : List String} {k : String} {v : Val}
    {c : Prop} [Decidable c]
    (hd : KeysSub d K) (hk : k ∈ K) : KeysSub (if c then dSet d k v else d) K := by
  split
  · exact keysSub_dSet hd hk
  · exact hd

theorem keysSub_setIfTruthy {d : PyDict} {K : List String} {k : String}
    {o : Option String} {f : String → Val}
    (hd : KeysSub d K) (hk : k ∈ K) : KeysSub (setIfTruthy d k o f) K := by
  unfold setIfTruthy
  cases o
  · exact hd
  · exact keysSub_condSet hd hk

theorem keysSub_setIfFound {d : PyDict} {K : List String} {k : String}
    {o : Option (List Char)}
    (hd : KeysSub d K) (hk : k ∈ K) : KeysSub (setIfFound d k o) K := by
  unfold setIfFound
  cases o
  · exact hd
  · exact keysSub_dSet hd hk

theorem parseText_keys (raw : String) : KeysSub (parseText raw) ptKeys := by
  unfold parseText
  exact keysSub_setIfFound
    (keysSub_dSet
      (keysSub_condSet
        (keysSub_condSet
          (keysSub_condSet
            (keysSub_condSet
              (keysSub_condSet
                (keysSub_condSet
                  (keysSub_setIfTruthy
                    (keysSub_setIfTruthy
                      (keysSub_setIfTruthy
                        (keysSub_setIfTruthy
                          (keysSub_setIfTruthy
                            (keysSub_setIfTruthy
                              (keysSub_setIfTruthy (keysSub_nil _) (by decide))
                              (by decide))
                            (by decide))
                          (by decide))
                        (by decide))
                      (by decide))
                    (by decide))
                  (by decide))
                (by decide))
              (by decide))
            (by decide))
          (by decide))
        (by decide))
      (by decide))
    (by decide)

theorem extractAll_keys (ex : Extractor) (t : String) :
    KeysSub (extractAll ex t) eaKeys := by
  intro kv hkv
  unfold extractAll at hkv
  rw [List.mem_filterMap] at hkv
  obtain ⟨kv', hm, he⟩ := hkv
  have hfst : kv.1 = kv'.1 := by
    cases h2 : kv'.2 with
    | none => rw [h2] at he; simp at he
    | some v => rw [h2] at he; simp only [Option.map_some'] at he; cases he; rfl
  rw [hfst]
  rcases List.mem_append.mp hm with hf | hb
  · simp only [List.mem_cons, List.not_mem_nil, or_false] at hf
    rcases hf with rfl | rfl | rfl | rfl | rfl | rfl | rfl | rfl | rfl <;>
      simp [eaKeys]
  · split at hb
    · simp only [List.mem_cons, List.not_mem_nil, or_false] at hb
      rcases hb with rfl | rfl <;> simp [eaKeys]
    · simp at hb

theorem keysSub_mergeStep {m : PyDict} {K : List String} {kv : String × Val}
    (hm : KeysSub m K) (hk : kv.1 ∈ K) : KeysSub (mergeStep m kv) K := by
  unfold mergeStep
  split
  · exact keysSub_dSet hm hk
  · split
    · exact keysSub_dSet hm hk
    · exact hm

theorem keysSub_mergeFold {K : List String} :
    ∀ (pairs : List (String × Val)) (m : PyDict),
      KeysSub m K → (∀ kv ∈ pairs, kv.1 ∈ K) →
      KeysSub (pairs.foldl mergeStep m) K := by
  intro pairs
  induction pairs with
  | nil => intro m hm _; exact hm
  | cons p ps ih =>
    intro m hm hp
    simp only [List.foldl_cons]
    exact ih _ (keysSub_mergeStep hm (hp p (List.mem_cons_self _ _)))
      (fun kv hkv => hp kv (List.mem_cons_of_mem _ hkv))

theorem keysSub_enrichIfMissing {m : PyDict} {K : List String} {k : String}
    {t : List Char} {re : RE}
    (hm : KeysSub m K) (hk : k ∈ K) : KeysSub (enrichIfMissing m k t re) K := by
  unfold enrichIfMissing
  split
  · split
    · split
      · exact keysSub_dSet hm hk
      · exact hm
    · exact hm
  · exact hm

theorem keysSub_setTotal {m : PyDict} {K : List String} {k : String}
    {t : List Char} {re : RE}
    (hm : KeysSub m K) (hk : k ∈ K) : KeysSub (setTotal m k t re) K := by
  unfold setTotal
  split
  · split
    · exact keysSub_dSet hm hk
    · exact hm
  · exact hm

theorem keysSub_forStep {m : PyDict} {K : List String}
    (hm : KeysSub m K) (hk : "plate_number" ∈ K) : KeysSub (forStep m) K := by
  unfold forStep
  split
  · split
    · split
      · split
        · exact keysSub_dSet hm hk
        · exact hm
      · exact hm
    · exact hm
  · exact hm

theorem keysSub_plateFromDocStep {docStruct m : PyDict} {K : List String}
    (hm : KeysSub m K) (hk : "plate_number" ∈ K) :
    KeysSub (plateFromDocStep docStruct m) K := by
  unfold plateFromDocStep
  split
  · split
    · exact keysSub_dSet hm hk
    · exact hm
  · exact hm

theorem keysSub_itemsStep {docStruct : PyDict} {td : List Char} {m : PyDict}
    {K : List String}
    (hm : KeysSub m K) (hk : "items" ∈ K) :
    KeysSub (itemsStep docStruct td m) K := by
  unfold itemsStep
  exact keysSub_condSet hm hk

theorem keysSub_svcStep {ex : Extractor} {m : PyDict} {K : List String}
    (hm : KeysSub m K) (h1 : "matched_service" ∈ K)
    (h2 : "estimated_minutes" ∈ K) : KeysSub (svcStep ex m) K := by
  unfold svcStep
  simp only
  split
  · split
    · exact keysSub_dSet (keysSub_dSet hm h1) h2
    · exact hm
  · exact hm

theorem pathA_keys (ex : Extractor) (text : String) (docStruct : PyDict)
    (hds : KeysSub docStruct pieKeys) :
    KeysSub (pathA ex text docStruct) pieKeys := by
  unfold pathA
  exact keysSub_svcStep
    (keysSub_setTotal
      (keysSub_setTotal
        (keysSub_setTotal
          (keysSub_itemsStep
            (keysSub_plateFromDocStep
              (keysSub_forStep
                (keysSub_enrichIfMissing
                  (keysSub_enrichIfMissing
                    (keysSub_dSet
                      (keysSub_mergeFold docStruct _
                        (keysSub_weaken (extractAll_keys ex text) (by decide))
                        (fun kv hkv => hds kv hkv))
                      (by decide))
                    (by decide))
                  (by decide))
                (by decide))
              (by decide))
            (by decide))
          (by decide))
        (by decide))
      (by decide))
    (by decide) (by decide)

theorem pathB_keys (ex : Extractor) (text : String) :
    KeysSub (pathB ex text) pieKeys := by
  unfold pathB
  exact keysSub_dSet (keysSub_weaken (extractAll_keys ex text) (by decide))
    (by decide)

theorem dGet_eq_none_of_not_mem {d : PyDict} {K : List String} {k : String}
    (hd : KeysSub d K) (hk : k ∉ K) : dGet d k = none := by
  unfold dGet
  rw [List.find?_eq_none.mpr]
  · rfl
  · intro kv hkv
    simp only [beq_iff_eq]
    intro he
    exact hk (he ▸ hd kv hkv)

/-! ## Plate-normalisation lemmas -/

theorem char_toNat_le_of_le {a b : Char} (h : a ≤ b) : a.toNat ≤ b.toNat := by
  rw [Char.le_def, UInt32.le_def, BitVec.le_def] at h
  exact h

theorem clsUp_toNat {c : Char} (h : clsUp c = true) :
    65 ≤ c.toNat ∧ c.toNat ≤ 90 := by
  simp only [clsUp, Bool.and_eq_true, decide_eq_true_eq] at h
  exact ⟨char_toNat_le_of_le h.1, char_toNat_le_of_le h.2⟩

theorem uint32_le_toNat {a b : UInt32} (h : a ≤ b) : a.toNat ≤ b.toNat := by
  rw [UInt32.le_def, BitVec.le_def] at h
  exact h

theorem isDigit_toNat {c : Char} (h : c.isDigit = true) :
    48 ≤ c.toNat ∧ c.toNat ≤ 57 := by
  simp only [Char.isDigit, Bool.and_eq_true, decide_eq_true_eq] at h
  have h1 := uint32_le_toNat h.1
  have h2 := uint32_le_toNat h.2
  have e1 : (48 : UInt32).toNat = 48 := rfl
  have e2 : (57 : UInt32).toNat = 57 := rfl
  rw [e1] at h1
  rw [e2] at h2
  exact ⟨h1, h2⟩

theorem toUpper_fixed_of_plateKeep {c : Char} (h : plateKeep c = true) :
    c.toUpper = c := by
  unfold Char.toUpper
  rw [if_neg]
  intro hc
  obtain ⟨h1, h2⟩ := hc
  simp only [plateKeep, Bool.or_eq_true] at h
  rcases h with h | h
  · have := (clsUp_toNat h).2
    omega
  · have := (isDigit_toNat h).2
    omega

theorem clsUp_false_of_digit {c : Char} (h : c.isDigit = true) :
    clsUp c = false := by
  by_contra hc
  rw [Bool.not_eq_false] at hc
  have h1 := (clsUp_toNat hc).1
  have h2 := (isDigit_toNat h).2
  omega

theorem digit_false_of_clsUp {c : Char} (h : clsUp c = true) :
    c.isDigit = false := by
  by_contra hc
  rw [Bool.not_eq_false] at hc
  have h1 := (clsUp_toNat h).1
  have h2 := (isDigit_toNat hc).2
  omega

theorem takeWhile_append_all {p : Char → Bool} :
    ∀ (A B : List Char), (∀ c ∈ A, p c = true) →
      (A ++ B).takeWhile p = A ++ B.takeWhile p ∧
      (A ++ B).dropWhile p = B.dropWhile p := by
  intro A
  induction A with
  | nil => intro B _; exact ⟨rfl, rfl⟩
  | cons a as ih =>
    intro B hA
    have ha : p a = true := hA a (List.mem_cons_self _ _)
    have hrest := ih B (fun c hc => hA c (List.mem_cons_of_mem _ hc))
    constructor
    · simp [List.cons_append, List.takeWhile_cons, ha, hrest.1]
    · simp [List.cons_append, List.dropWhile_cons, ha, hrest.2]

theorem takeWhile_nil_of_head_false {p : Char → Bool} {b : Char} {bs : List Char}
    (h : p b = false) :
    (b :: bs).takeWhile p = [] ∧ (b :: bs).dropWhile p = b :: bs := by
  simp [List.takeWhile_cons, List.dropWhile_cons, h]

/-- The anchored greedy decomposition is unique: rebuilding a
letters/digits/letters split hits the same parts. -/
theorem plateDecomp_of_parts (L D T : List Char)
    (hL0 : L ≠ []) (hD0 : D ≠ [])
    (hL : ∀ c ∈ L, clsUp c = true) (hD : ∀ c ∈ D, Char.isDigit c = true)
    (hT : ∀ c ∈ T, clsUp c = true) :
    plateDecomp (L ++ D ++ T) = some (L, D, T) := by
  have hDT : (D ++ T).takeWhile clsUp = [] ∧ (D ++ T).dropWhile clsUp = D ++ T := by
    cases D with
    | nil => exact absurd rfl hD0
    | cons d ds =>
      exact takeWhile_nil_of_head_false
        (clsUp_false_of_digit (hD d (List.mem_cons_self _ _)))
  have h1 := takeWhile_append_all L (D ++ T) hL
  have hTd : T.takeWhile Char.isDigit = [] ∧ T.dropWhile Char.isDigit = T := by
    cases T with
    | nil => exact ⟨rfl, rfl⟩
    | cons t ts =>
      exact takeWhile_nil_of_head_false
        (digit_false_of_clsUp (hT t (List.mem_cons_self _ _)))
  have h2 := takeWhile_append_all D T hD
  have hTk : T.takeWhile clsUp = T := List.takeWhile_eq_self_iff.mpr hT
  have hTdrop : T.dropWhile clsUp = [] := List.dropWhile_eq_nil_iff.mpr hT
  unfold plateDecomp
  rw [List.append_assoc, h1.1, h1.2, hDT.1, hDT.2, h2.1, h2.2, hTd.1, hTd.2,
    hTk, hTdrop, List.append_nil]
  simp [hL0, hD0]

theorem plateDecomp_parts {l L D T : List Char}
    (h : plateDecomp l = some (L, D, T)) :
    l = L ++ D ++ T ∧ L ≠ [] ∧ D ≠ [] ∧
      (∀ c ∈ L, clsUp c = true) ∧ (∀ c ∈ D, Char.isDigit c = true) ∧
      (∀ c ∈ T, clsUp c = true) := by
  unfold plateDecomp at h
  split at h
  · rename_i hcond
    simp only [Option.some.injEq, Prod.mk.injEq] at h
    obtain ⟨rfl, rfl, rfl⟩ := h
    refine ⟨?_, hcond.1, hcond.2.1, ?_, ?_, ?_⟩
    · have e3 : (l.dropWhile clsUp).dropWhile Char.isDigit =
          ((l.dropWhile clsUp).dropWhile Char.isDigit).takeWhile clsUp := by
        conv_lhs => rw [← List.takeWhile_append_dropWhile (p := clsUp)
          (l := (l.dropWhile clsUp).dropWhile Char.isDigit)]
        rw [hcond.2.2, List.append_nil]
      calc l = l.takeWhile clsUp ++ l.dropWhile clsUp :=
            (List.takeWhile_append_dropWhile clsUp l).symm
        _ = l.takeWhile clsUp ++ ((l.dropWhile clsUp).takeWhile Char.isDigit ++
              (l.dropWhile clsUp).dropWhile Char.isDigit) := by
            rw [List.takeWhile_append_dropWhile Char.isDigit (l.dropWhile clsUp)]
        _ = _ := by rw [← e3, List.append_assoc]
    · exact fun c hc => List.mem_takeWhile_imp hc
    · exact fun c hc => List.mem_takeWhile_imp hc
    · exact fun c hc => List.mem_takeWhile_imp hc
  · exact absurd h (by simp)

theorem upper_filter_fixed (l : List Char) (h : ∀ c ∈ l, plateKeep c = true) :
    (pyUpperL l).filter plateKeep = l := by
  have hmap : pyUpperL l = l := by
    unfold pyUpperL
    rw [List.map_congr_left (fun c hc => toUpper_fixed_of_plateKeep (h c hc))]
    exact List.map_id l
  rw [hmap]
  exact List.filter_eq_self.mpr h

theorem map_toUpper_fixed (A : List Char) (h : ∀ c ∈ A, plateKeep c = true) :
    A.map Char.toUpper = A := by
  rw [List.map_congr_left (fun c hc => toUpper_fixed_of_plateKeep (h c hc))]
  exact List.map_id A

theorem filter_plateKeep_all (A : List Char) (h : ∀ c ∈ A, plateKeep c = true) :
    A.filter plateKeep = A :=
  List.filter_eq_self.mpr h

theorem cleanPlateL_idem (l : List Char) :
    cleanPlateL (cleanPlateL l) = cleanPlateL l := by
  have hkeep : ∀ c ∈ (pyUpperL l).filter plateKeep, plateKeep c = true :=
    fun c hc => (List.mem_filter.mp hc).2
  cases hd : plateDecomp ((pyUpperL l).filter plateKeep) with
  | none =>
    have hout : cleanPlateL l = (pyUpperL l).filter plateKeep := by
      unfold cleanPlateL
      rw [hd]
    rw [hout]
    unfold cleanPlateL
    rw [upper_filter_fixed _ hkeep, hd]
  | some LDT =>
    obtain ⟨L, D, T⟩ := LDT
    obtain ⟨hsplit, hL0, hD0, hLU, hDD, hTU⟩ := plateDecomp_parts hd
    have hout : cleanPlateL l = L ++ ' ' :: D ++ (if T = [] then [] else ' ' :: T) := by
      unfold cleanPlateL
      rw [hd]
    have hLkeep : ∀ c ∈ L, plateKeep c = true := fun c hc => by
      simp [plateKeep, hLU c hc]
    have hDkeep : ∀ c ∈ D, plateKeep c = true := fun c hc => by
      simp [plateKeep, hDD c hc]
    have hTkeep : ∀ c ∈ T, plateKeep c = true := fun c hc => by
      simp [plateKeep, hTU c hc]
    have htail : ((if T = [] then [] else ' ' :: T).map Char.toUpper).filter
        plateKeep = T := by
      by_cases hT0 : T = []
      · subst hT0
        rfl
      · rw [if_neg hT0, List.map_cons, map_toUpper_fixed T hTkeep]
        rw [show (' '.toUpper) = ' ' from by decide, List.filter_cons]
        simp only [show plateKeep ' ' = false from rfl, Bool.false_eq_true,
          if_false]
        exact filter_plateKeep_all T hTkeep
    have hfix : (pyUpperL (L ++ ' ' :: D ++ (if T = [] then [] else ' ' :: T))).filter
        plateKeep = L ++ D ++ T := by
      unfold pyUpperL
      rw [List.map_append, List.filter_append, htail]
      rw [List.map_append, List.filter_append]
      rw [map_toUpper_fixed L hLkeep, filter_plateKeep_all L hLkeep]
      rw [List.map_cons, map_toUpper_fixed D hDkeep]
      rw [show (' '.toUpper) = ' ' from by decide, List.filter_cons]
      simp only [show plateKeep ' ' = false from rfl, Bool.false_eq_true,
        if_false]
      rw [filter_plateKeep_all D hDkeep, List.append_assoc]
    rw [hout]
    unfold cleanPlateL
    rw [hfix, plateDecomp_of_parts L D T hL0 hD0 hLU hDD hTU]

/-- C9: `_clean_plate` is idempotent — normalising an already
normalised plate returns it unchanged: the second pass strips the
inserted spaces back to the same alphanumeric string and re-derives the
same decomposition. -/
theorem clean_plate_idempotent (s : String) :
    cleanPlate (cleanPlate s) = cleanPlate s := by
  unfold cleanPlate
  exact congrArg String.mk (cleanPlateL_idem s.data)

/-- The output shape claimed by the spec for phone normalisation: a
digit string optionally preceded by one leading `+` (modelled from the
claim's words, for comparison with the code's `_clean_phone`). -/
def specPhoneShape (s : String) : Bool :=
  match s.data with
  | '+' :: rest => rest.all Char.isDigit
  | l => l.all Char.isDigit

/-- C8 (counterexample): `_clean_phone` keeps every `+`, not only a
leading one — on `"1+2"` the result `"1+2"` has `+` in the middle,
violating the claimed digits-with-optional-leading-`+` shape. -/
theorem clean_phone_interior_plus_counterexample :
    cleanPhone "1+2" = "1+2" ∧ specPhoneShape (cleanPhone "1+2") = false := by
  constructor
  · rfl
  · decide

/-- C8 (amended): `_clean_phone` removes exactly the characters that
are neither digits nor `+`, keeping every digit and every `+` (at any
position, with multiplicity and order preserved). -/
theorem clean_phone_char_spec (s : String) :
    (∀ c ∈ (cleanPhone s).data, c.isDigit = true ∨ c = '+') ∧
    List.Sublist (cleanPhone s).data s.data ∧
    (∀ c : Char, c.isDigit = true ∨ c = '+' →
      List.count c (cleanPhone s).data = List.count c s.data) ∧
    (∀ c : Char, ¬(c.isDigit = true ∨ c = '+') →
      List.count c (cleanPhone s).data = 0) := by
  refine ⟨?_, ?_, ?_, ?_⟩
  · intro c hc
    have h2 := (List.mem_filter.mp hc).2
    simpa only [Bool.or_eq_true, beq_iff_eq] using h2
  · exact List.filter_sublist _
  · intro c hc
    apply List.count_filter
    simp only [Bool.or_eq_true, beq_iff_eq]
    exact hc
  · intro c hc
    rw [List.count_eq_zero]
    intro hmem
    exact hc (by simpa only [Bool.or_eq_true, beq_iff_eq] using
      (List.mem_filter.mp hmem).2)

/-- C8 (witness): the amended characterisation applied to `"1a+2"`. -/
theorem clean_phone_char_spec_witness :
    List.count '1' (cleanPhone "1a+2").data = List.count '1' "1a+2".data ∧
    List.count 'a' (cleanPhone "1a+2").data = 0 :=
  ⟨(clean_phone_char_spec "1a+2").2.2.1 '1' (Or.inl (by decide)),
   (clean_phone_char_spec "1a+2").2.2.2 'a' (by decide)⟩

/-- C7 (counterexample): `_parse_text` on empty text is not an empty
map — the `keywords` key is set unconditionally, so the result is
`{'keywords': []}`. -/
theorem parse_text_empty_has_keywords_key :
    parseText "" ≠ [] ∧ dGet (parseText "") "keywords" = some (Val.list []) := by
  constructor
  · decide
  · decide

/-- C7 (amended): on empty or whitespace-only text, `_parse_text`
returns (without raising) the map whose only entry is the
unconditionally-set `keywords` key bound to the empty list. -/
theorem parse_text_whitespace_only (raw : String)
    (hws : ∀ c ∈ raw.data, isPyWs c = true) :
    parseText raw = [("keywords", Val.list [])] :=
  parseText_ws raw hws

/-- C7 (witness): the amended statement at `"  \n\t "`. -/
theorem parse_text_whitespace_only_witness :
    parseText "  \n\t " = [("keywords", Val.list [])] :=
  parse_text_whitespace_only "  \n\t " (by decide)

/-! ## Confidence scorer (C4) -/

/-- The confidence score as the spec describes it: the sum of the
fixed weights over exactly the categories whose lists are non-empty
(modelled from the spec's words, for comparison with
`_calculate_confidence`). -/
def specConfidence (d : PyDict) : Nat :=
  (confChecks.filter (fun kw =>
    ((pyLenVal ((dGet d kw.1).getD (.list []))).getD 0) > 0)).foldl
    (fun a kw => a + kw.2) 0

/-- C4: `_calculate_confidence` returns exactly the sum of the fixed
weights (phone_numbers 20, emails 20, vehicle_plates 30,
vehicle_makes 15, amounts 15) over the categories whose lists are
non-empty, always within [0, 100] and without a division error; a map
holding only a non-empty `vehicle_plates` list scores exactly 30 where
the empty map scores 0. -/
theorem calculate_confidence_weights (d : PyDict)
    (h : ∀ kw ∈ confChecks,
      (pyLenVal ((dGet d kw.1).getD (.list []))).isSome = true) :
    calcConfidence d = some (specConfidence d) ∧
    specConfidence d ≤ 100 ∧
    (∀ l : List String, l ≠ [] →
      calcConfidence [("vehicle_plates", Val.list l)] = some 30) ∧
    calcConfidence [] = some 0 := by
  obtain ⟨n1, e1⟩ := Option.isSome_iff_exists.mp (h ("phone_numbers", 20) (by decide))
  obtain ⟨n2, e2⟩ := Option.isSome_iff_exists.mp (h ("emails", 20) (by decide))
  obtain ⟨n3, e3⟩ := Option.isSome_iff_exists.mp (h ("vehicle_plates", 30) (by decide))
  obtain ⟨n4, e4⟩ := Option.isSome_iff_exists.mp (h ("vehicle_makes", 15) (by decide))
  obtain ⟨n5, e5⟩ := Option.isSome_iff_exists.mp (h ("amounts", 15) (by decide))
  refine ⟨?_, ?_, ?_, ?_⟩
  · unfold calcConfidence specConfidence confChecks
    simp only [List.foldl_cons, List.foldl_nil, List.filter, e1, e2, e3, e4, e5,
      Option.bind_some, Option.map_some', Option.some_bind, Option.getD_some]
    by_cases h1 : n1 > 0 <;> by_cases h2 : n2 > 0 <;> by_cases h3 : n3 > 0 <;>
      by_cases h4 : n4 > 0 <;> by_cases h5 : n5 > 0 <;>
      simp [h1, h2, h3, h4, h5]
  · unfold specConfidence confChecks
    simp only [List.filter, e1, e2, e3, e4, e5, Option.getD_some]
    by_cases h1 : n1 > 0 <;> by_cases h2 : n2 > 0 <;> by_cases h3 : n3 > 0 <;>
      by_cases h4 : n4 > 0 <;> by_cases h5 : n5 > 0 <;>
      simp [h1, h2, h3, h4, h5]
  · intro l hl
    have hlen : l.length > 0 := List.length_pos.mpr hl
    unfold calcConfidence confChecks
    simp only [List.foldl_cons, List.foldl_nil, dGet, pyLenVal]
    simp [List.find?, hlen, Nat.pos_iff_ne_zero.mp hlen]
  · decide

/-- C4 (witness): the theorem applied to a concrete plates-only map
and the empty map. -/
theorem calculate_confidence_weights_witness :
    calcConfidence [("vehicle_plates", Val.list ["T 123 ABC"])] = some 30 ∧
    calcConfidence [] = some 0 :=
  ⟨(calculate_confidence_weights [("vehicle_plates", Val.list ["T 123 ABC"])]
      (by decide)).2.2.1 ["T 123 ABC"] (by decide),
   (calculate_confidence_weights [] (by decide)).2.2.2⟩

/-! ## Amount extraction sign (C10) -/

theorem pyDecUnsigned_neg {sgn : Bool} {rest : List Char} {d : PyDecimal}
    (h : pyDecUnsigned sgn rest = some d) : d.neg = sgn := by
  unfold pyDecUnsigned at h
  split at h
  · split at h
    · simp at h
    · simp only [Option.some.injEq] at h
      rw [← h]
  · split at h
    · simp only [Option.some.injEq] at h
      rw [← h]
    · simp at h
  · simp at h

/-- C10: `extract_amount` never returns a negative decimal — the
matched amount string is reduced to digits and dots before `Decimal`
parsing, discarding any sign; by contrast `_parse_amount_str` converts
a parenthesised amount to a negative numeric string. -/
theorem extract_amount_nonneg (ex : Extractor) (text : String) (d : PyDecimal)
    (h : extractAmount ex text = some d) :
    d.neg = false ∧ 0 ≤ d.toRat ∧ parseAmountStr "(500)" = some "-500" := by
  have hneg : d.neg = false := by
    unfold extractAmount at h
    cases hf : extractField ex text "amount" with
    | none => rw [hf] at h; simp at h
    | some s =>
      rw [hf] at h
      simp only at h
      split at h
      · simp at h
      · have hmem : ∀ c ∈ s.data.filter (fun c => c.isDigit || c == '.'),
            (c.isDigit || c == '.') = true :=
          fun c hc => (List.mem_filter.mp hc).2
        unfold pyDecimalOfChars at h
        split at h
        · rename_i heq
          have : (('-').isDigit || ('-') == '.') = true := by
            apply hmem
            rw [heq]
            exact List.mem_cons_self _ _
          simp at this
        · rename_i heq
          have : (('+').isDigit || ('+') == '.') = true := by
            apply hmem
            rw [heq]
            exact List.mem_cons_self _ _
          simp at this
        · exact pyDecUnsigned_neg h
  refine ⟨hneg, ?_, by decide⟩
  unfold PyDecimal.toRat
  rw [hneg]
  simp only [Bool.false_eq_true, if_false]
  exact mul_nonneg (Nat.cast_nonneg _) (zpow_nonneg (by norm_num) _)

/-- C10 (witness): the theorem at the default numeric-amount pattern on
`"42"`. -/
theorem extract_amount_nonneg_witness :
    (⟨false, 42, 0⟩ : PyDecimal).neg = false ∧
    0 ≤ (⟨false, 42, 0⟩ : PyDecimal).toRat ∧
    parseAmountStr "(500)" = some "-500" :=
  extract_amount_nonneg ⟨fun _ => [], []⟩ "42" ⟨false, 42, 0⟩ (by decide)

/-! ## Rule iteration and priority order (C3) -/

theorem firstRuleMatch_eq_findSome (rules : List Rule) (t : List Char) :
    firstRuleMatch rules t = (rules.map (evalRule t)).findSome? id := by
  induction rules with
  | nil => rfl
  | cons r rs ih =>
    simp only [firstRuleMatch, List.map_cons, List.findSome?_cons]
    cases evalRule t r <;> simp [ih]

theorem firstRuleMatch_eq_none_iff (rules : List Rule) (t : List Char) :
    firstRuleMatch rules t = none ↔ ∀ r ∈ rules, evalRule t r = none := by
  induction rules with
  | nil => simp [firstRuleMatch]
  | cons r rs ih =>
    simp only [firstRuleMatch]
    cases h : evalRule t r with
    | some v => simp [h]
    | none => simp [h, ih]

theorem mem_insertByPrio (r : PatternRow) :
    ∀ (l : List PatternRow) (b : PatternRow), b ∈ insertByPrio r l →
      b = r ∨ b ∈ l := by
  intro l
  induction l with
  | nil =>
    intro b hb
    simp only [insertByPrio, List.mem_singleton] at hb
    exact Or.inl hb
  | cons x xs ih =>
    intro b hb
    unfold insertByPrio at hb
    split at hb
    · rcases List.mem_cons.mp hb with rfl | hb
      · exact Or.inr (List.mem_cons_self _ _)
      · rcases ih b hb with h | h
        · exact Or.inl h
        · exact Or.inr (List.mem_cons_of_mem _ h)
    · rcases List.mem_cons.mp hb with rfl | hb
      · exact Or.inl rfl
      · exact Or.inr hb

theorem insertByPrio_sorted (r : PatternRow) :
    ∀ l : List PatternRow,
      l.Pairwise (fun a b => a.priority ≤ b.priority) →
      (insertByPrio r l).Pairwise (fun a b => a.priority ≤ b.priority) := by
  intro l
  induction l with
  | nil => intro _; simp [insertByPrio]
  | cons x xs ih =>
    intro hl
    rw [List.pairwise_cons] at hl
    unfold insertByPrio
    split
    · rename_i hx
      rw [List.pairwise_cons]
      refine ⟨?_, ih hl.2⟩
      intro b hb
      rcases mem_insertByPrio r xs b hb with rfl | hb
      · exact hx
      · exact hl.1 b hb
    · rename_i hx
      rw [List.pairwise_cons]
      refine ⟨?_, List.pairwise_cons.mpr hl⟩
      intro b hb
      have hrx : r.priority ≤ x.priority := Nat.le_of_lt (Nat.not_le.mp hx)
      rcases List.mem_cons.mp hb with rfl | hb
      · exact hrx
      · exact Nat.le_trans hrx (hl.1 b hb)

theorem sortByPrio_sorted (l : List PatternRow) :
    (sortByPrio l).Pairwise (fun a b => a.priority ≤ b.priority) := by
  induction l with
  | nil => simp [sortByPrio]
  | cons x xs ih => exact insertByPrio_sorted x (sortByPrio xs) ih

/-- C3: `extract_field` tries the field's loaded rules in order,
returning the first rule's stripped non-empty configured group, and
`None` exactly when every rule fails; the loaded rule list is sorted
ascending by priority, so with two rules of priorities 10 and 20 the
priority-20 match is returned when only it matches and the priority-10
result wins when both match. -/
theorem extract_field_rule_order (ex : Extractor) (text : String) (ft : String) :
    (extractField ex text ft =
      ((patternsFor ex ft).map (evalRule text.data)).findSome? id) ∧
    (extractField ex text ft = none ↔
      ∀ r ∈ patternsFor ex ft, evalRule text.data r = none) ∧
    (∀ rows : List PatternRow,
      (loadPatterns rows ft).Pairwise (fun a b => a.priority ≤ b.priority)) ∧
    (∀ (rows : List PatternRow) (r1 r2 : Rule),
      loadPatterns rows ft = [r1, r2] → r1.priority = 10 → r2.priority = 20 →
      (evalRule text.data r1 = none →
        firstRuleMatch (loadPatterns rows ft) text.data = evalRule text.data r2) ∧
      (∀ v, evalRule text.data r1 = some v →
        firstRuleMatch (loadPatterns rows ft) text.data = some v)) := by
  refine ⟨firstRuleMatch_eq_findSome _ _, firstRuleMatch_eq_none_iff _ _, ?_, ?_⟩
  · intro rows
    unfold loadPatterns
    rw [List.pairwise_map]
    exact (sortByPrio_sorted _).filter _
  · intro rows r1 r2 hload _ _
    rw [hload]
    constructor
    · intro h1
      simp only [firstRuleMatch, h1]
      cases evalRule text.data r2 <;> rfl
    · intro v h1
      simp only [firstRuleMatch, h1]

/-- Configuration rows for the C3 witness: two active rules for field
type `"f"` loaded out of priority order, plus an inactive one. -/
def c3Rows : List PatternRow :=
  [⟨"letters", "f", .grp 1 (rePlus (.cls clsAl)), 1, 20, true⟩,
   ⟨"digits", "f", .grp 1 (rePlus (.cls clsD)), 1, 10, true⟩,
   ⟨"inactive", "f", .grp 1 (rePlus (.cls clsD)), 1, 5, false⟩]

/-- An extractor loaded from `c3Rows`. -/
def c3Ex : Extractor := ⟨loadPatterns c3Rows, []⟩

/-- C3 (witness): on `"abc"` only the priority-20 letters rule matches
and its value is returned; on `"x 42"` both rules match and the
priority-10 digits rule wins. -/
theorem extract_field_rule_order_witness :
    extractField c3Ex "abc" "f" = some "abc" ∧
    extractField c3Ex "x 42" "f" = some "42" := by
  constructor
  · have h := ((extract_field_rule_order c3Ex "abc" "f").2.2.2 c3Rows
      ⟨"digits", .grp 1 (rePlus (.cls clsD)), 1, 10⟩
      ⟨"letters", .grp 1 (rePlus (.cls clsAl)), 1, 20⟩ rfl rfl rfl).1 (by decide)
    rw [show extractField c3Ex "abc" "f" =
      firstRuleMatch (loadPatterns c3Rows "f") "abc".data from rfl, h]
    decide
  · exact ((extract_field_rule_order c3Ex "x 42" "f").2.2.2 c3Rows
      ⟨"digits", .grp 1 (rePlus (.cls clsD)), 1, 10⟩
      ⟨"letters", .grp 1 (rePlus (.cls clsAl)), 1, 20⟩ rfl rfl rfl).2 "42" (by decide)

/-! ## Line items (C5, C6) -/

theorem amtTake_ne_nil {c : Char} (rest : List Char) (hc : c.isDigit = true) :
    amtTake (c :: rest) ≠ [] := by
  unfold amtTake
  split
  · intro h
    rcases List.append_eq_nil.mp h with ⟨_, h2⟩
    exact List.cons_ne_nil _ _ h2
  · rw [List.takeWhile_cons, if_pos hc]
    exact List.cons_ne_nil _ _

theorem amtScan_ne_nil : ∀ (l r : List Char), amtScan l = some r → r ≠ [] := by
  intro l
  induction l with
  | nil => intro r h; simp [amtScan] at h
  | cons c cs ih =>
    intro r h
    unfold amtScan at h
    split at h
    · cases cs with
      | nil => simp at h
      | cons d ds =>
        simp only at h
        split at h
        · simp only [Option.some.injEq] at h
          rw [← h]
          exact List.cons_ne_nil _ _
        · exact ih r h
    · split at h
      · rename_i hnd hd
        simp only [Option.some.injEq] at h
        rw [← h]
        exact amtTake_ne_nil cs hd
      · exact ih r h

theorem parseAmountStr_ne_empty (s x : String) (h : parseAmountStr s = some x) :
    x ≠ "" := by
  unfold parseAmountStr at h
  simp only [Option.map_eq_some'] at h
  obtain ⟨r, hr, hx⟩ := h
  have hrn := amtScan_ne_nil _ r hr
  rw [← hx]
  intro hcontra
  exact hrn (congrArg String.data hcontra)

theorem lineNums_mem_ne_empty (line : List Char) :
    ∀ x ∈ lineNums line, x ≠ "" := by
  intro x hx
  unfold lineNums at hx
  rw [List.mem_filterMap] at hx
  obtain ⟨a, _, ha⟩ := hx
  exact parseAmountStr_ne_empty _ x ha

/-- C5: on a candidate line whose numeric-token list is non-empty, the
item's `value` is the last token, `rate` the second-to-last when
present, `qty` the third-to-last when present; concretely,
`"A001 Brake Pad Set 2 15000 30000"` yields exactly one item with
code `A001`, value `30000`, rate `15000` and qty `2`. -/
theorem extract_items_positional (allLines : List (List Char)) (idx : Nat)
    (line : List Char)
    (hh : isHeaderLine line = false)
    (hl : (reSearch line (.cls clsAl)).isSome = true)
    (hd : (reSearch line (.cls clsD)).isSome = true)
    (hn : lineNums line ≠ []) :
    (∃ it, mkItem allLines idx line = some it ∧
      it.description = (⟨line⟩ : String) ∧
      it.value = (lineNums line).getLast? ∧
      it.rate = (if (lineNums line).length ≥ 2 then
        (lineNums line).get? ((lineNums line).length - 2) else none) ∧
      it.qty = (if (lineNums line).length ≥ 3 then
        (lineNums line).get? ((lineNums line).length - 3) else none)) ∧
    extractItems "A001 Brake Pad Set 2 15000 30000".data =
      [⟨"A001 Brake Pad Set 2 15000 30000", some "A001", some "2", some "15000",
        some "30000"⟩] := by
  constructor
  · have ha : assignNums (lineNums line) none none none =
        ((lineNums line).getLast?,
         (if (lineNums line).length ≥ 2 then
           (lineNums line).get? ((lineNums line).length - 2) else none),
         (if (lineNums line).length ≥ 3 then
           (lineNums line).get? ((lineNums line).length - 3) else none)) := by
      unfold assignNums
      rw [if_pos hn]
    obtain ⟨s, hs⟩ := Option.isSome_iff_exists.mp
      ((List.getLast?_isSome).mpr hn)
    have hsmem : s ∈ lineNums line := List.mem_of_getLast?_eq_some hs
    have hsne : s ≠ "" := lineNums_mem_ne_empty line s hsmem
    have htru : optTruthy ((lineNums line).getLast?) = true := by
      simp only [optTruthy, hs]
      simp [hsne]
    have hmk : mkItem allLines idx line = some
        ⟨(⟨line⟩ : String),
         (reSearch line itemCodeRe).bind
           (fun m => (groupVal line m 1).map (fun v => (⟨v⟩ : String))),
         (if (lineNums line).length ≥ 3 then
           (lineNums line).get? ((lineNums line).length - 3) else none),
         (if (lineNums line).length ≥ 2 then
           (lineNums line).get? ((lineNums line).length - 2) else none),
         (lineNums line).getLast?⟩ := by
      unfold mkItem
      simp only [hh, Bool.false_eq_true, if_false, hl, hd, Bool.and_self,
        if_true, ha, htru, Bool.not_true, not_true, if_false]
    exact ⟨_, hmk, rfl, rfl, rfl, rfl⟩
  · decide

/-- C6: every item `_extract_items` emits comes from a line holding at
least one letter and at least one digit, and survives only with a
resolvable `value` or `qty`. -/
theorem extract_items_invariants (t : List Char) (it : RawItem)
    (h : it ∈ extractItems t) :
    (∃ c ∈ it.description.data, clsAl c = true) ∧
    (∃ c ∈ it.description.data, Char.isDigit c = true) ∧
    (it.value.isSome = true ∨ it.qty.isSome = true) := by
  unfold extractItems at h
  rw [List.mem_filter] at h
  obtain ⟨hmem, hval⟩ := h
  rw [List.mem_filterMap] at hmem
  obtain ⟨⟨i, line⟩, _, hmk⟩ := hmem
  unfold mkItem at hmk
  split at hmk
  · simp at hmk
  · split at hmk
    · rename_i hguard
      rw [Bool.and_eq_true] at hguard
      simp only [Option.some.injEq] at hmk
      have hdesc : it.description = (⟨line⟩ : String) := by rw [← hmk]
      obtain ⟨r1, hr1⟩ := Option.isSome_iff_exists.mp hguard.1
      obtain ⟨r2, hr2⟩ := Option.isSome_iff_exists.mp hguard.2
      obtain ⟨c1, hc1, hp1⟩ := reSearch_cls_some line clsAl r1 hr1
      obtain ⟨c2, hc2, hp2⟩ := reSearch_cls_some line Char.isDigit r2 hr2
      refine ⟨⟨c1, ?_, hp1⟩, ⟨c2, ?_, hp2⟩, ?_⟩
      · rw [hdesc]; exact hc1
      · rw [hdesc]; exact hc2
      · simpa only [Bool.or_eq_true] using hval
    · simp at hmk

/-- C5 (witness): the positional assignment at the concrete brake-pad
line. -/
theorem extract_items_positional_witness :
    ∃ it, mkItem ["A001 Brake Pad Set 2 15000 30000".data] 0
        "A001 Brake Pad Set 2 15000 30000".data = some it ∧
      it.description = (⟨"A001 Brake Pad Set 2 15000 30000".data⟩ : String) ∧
      it.value = (lineNums "A001 Brake Pad Set 2 15000 30000".data).getLast? ∧
      it.rate = (if (lineNums "A001 Brake Pad Set 2 15000 30000".data).length ≥ 2 then
        (lineNums "A001 Brake Pad Set 2 15000 30000".data).get?
          ((lineNums "A001 Brake Pad Set 2 15000 30000".data).length - 2) else none) ∧
      it.qty = (if (lineNums "A001 Brake Pad Set 2 15000 30000".data).length ≥ 3 then
        (lineNums "A001 Brake Pad Set 2 15000 30000".data).get?
          ((lineNums "A001 Brake Pad Set 2 15000 30000".data).length - 3) else none) :=
  (extract_items_positional ["A001 Brake Pad Set 2 15000 30000".data] 0
    "A001 Brake Pad Set 2 15000 30000".data (by decide) (by decide) (by decide)
    (by decide)).1

/-- C6 (witness): the invariants at the line `"Part X9 5"`. -/
theorem extract_items_invariants_witness :
    (∃ c ∈ (⟨"Part X9 5", none, none, some "9", some "5"⟩ : RawItem).description.data,
      clsAl c = true) ∧
    (∃ c ∈ (⟨"Part X9 5", none, none, some "9", some "5"⟩ : RawItem).description.data,
      Char.isDigit c = true) ∧
    ((⟨"Part X9 5", none, none, some "9", some "5"⟩ : RawItem).value.isSome = true ∨
      (⟨"Part X9 5", none, none, some "9", some "5"⟩ : RawItem).qty.isSome = true) :=
  extract_items_invariants "Part X9 5".data
    ⟨"Part X9 5", none, none, some "9", some "5"⟩ (by decide)

/-! ## End-to-end scenario A (C2) -/

/-- The extractor state of scenario A: no configuration rows loaded (so
the built-in defaults are used) and an active "Oil Change" template
with keyword `oil`. -/
def scenarioAEx : Extractor :=
  ⟨fun _ => [], [("Oil Change", ⟨["oil"], 30, "maintenance"⟩)]⟩

/-- The raw text of scenario A. -/
def scenarioAText : String :=
  "Customer: John Doe\nPhone: 0712 345 678\nService: Oil Change\nTotal: TSH 25,000"

/-- C2 (counterexample): the full `extract_all` output on scenario A.
The labeled-total pattern allows at most one letter between the label
and the digits, so it fails on `TSH`; the generic numeric fallback then
captures the first digit run `0712` (from the phone), giving
`amount = "712"`, not `"25000"`; and `customer_phone` is returned as
matched (`"0712 345 678"`, spaces kept), not digits-only. -/
theorem extract_all_scenarioA_counterexample :
    extractAll scenarioAEx scenarioAText =
      [("plate_number", .str "John Doe"), ("customer_name", .str "John Doe"),
       ("customer_phone", .str "0712 345 678"),
       ("service_description", .str "Oil Change"),
       ("item_name", .str "Oil Change"), ("amount", .str "712"),
       ("matched_service", .str "Oil Change"),
       ("estimated_minutes", .natv 30)] ∧
    Val.str "712" ≠ Val.str "25000" ∧
    ("0712 345 678".data.all Char.isDigit) = false := by
  refine ⟨by decide, by decide, by decide⟩

/-- C2 (amended): on scenario A with the default patterns and any
active "Oil Change" template with keyword `oil`, `extract_all` yields
`customer_name = "John Doe"`, the raw `customer_phone`
`"0712 345 678"` (trimmed match, spaces kept, not digits-only),
`service_description = "Oil Change"`, `amount = "712"` (the labeled
pattern fails on the `TSH` prefix and the numeric fallback grabs the
phone's leading digit run `0712`), and
`matched_service = "Oil Change"`. -/
theorem extract_all_scenarioA (m : Nat) (st : String) :
    dGet (extractAll ⟨fun _ => [], [("Oil Change", ⟨["oil"], m, st⟩)]⟩
      scenarioAText) "customer_name" = some (.str "John Doe") ∧
    dGet (extractAll ⟨fun _ => [], [("Oil Change", ⟨["oil"], m, st⟩)]⟩
      scenarioAText) "customer_phone" = some (.str "0712 345 678") ∧
    dGet (extractAll ⟨fun _ => [], [("Oil Change", ⟨["oil"], m, st⟩)]⟩
      scenarioAText) "service_description" = some (.str "Oil Change") ∧
    dGet (extractAll ⟨fun _ => [], [("Oil Change", ⟨["oil"], m, st⟩)]⟩
      scenarioAText) "amount" = some (.str "712") ∧
    dGet (extractAll ⟨fun _ => [], [("Oil Change", ⟨["oil"], m, st⟩)]⟩
      scenarioAText) "matched_service" = some (.str "Oil Change") :=
  ⟨rfl, rfl, rfl, rfl, rfl⟩

/-! ## Orchestrator error contract (C1) -/

/-- C1: `process_invoice_extraction` always returns either a field map
without an `error` key or the single-entry `{'error': msg}` map — never
a mix (and, being total, never an escaped exception); for any document
whose file name ends with an image extension it returns exactly the
OCR-disabled error, whose message mentions "PDF" and "text", with no
extracted field keys. -/
theorem process_invoice_extraction_error_contract (ex : Extractor)
    (doc : DocumentScan) :
    ((∃ msg, processInvoiceExtraction ex doc = [("error", Val.str msg)]) ∨
      dGet (processInvoiceExtraction ex doc) "error" = none) ∧
    (isImageName doc.fileName = true →
      processInvoiceExtraction ex doc = [("error", Val.str imgMsg)] ∧
      hasSub imgMsg.data "PDF".data = true ∧
      hasSub imgMsg.data "text".data = true ∧
      (∀ k, k ≠ "error" →
        dGet (processInvoiceExtraction ex doc) k = none)) := by
  have herr : ("error" : String) ∉ pieKeys := by decide
  constructor
  · unfold processInvoiceExtraction
    split
    · exact Or.inl ⟨imgMsg, rfl⟩
    · split
      · cases doc.utf8 with
        | some text =>
          exact Or.inr (dGet_eq_none_of_not_mem (pathB_keys ex text) herr)
        | none => exact Or.inl ⟨_, rfl⟩
      · by_cases hpdf : pyLowerS (fileSuffix doc.fileName) = ".pdf"
        · cases hp : doc.pdf with
          | ok raw =>
            have hr : extractFromFile doc =
                ⟨true, raw, parseText raw, none⟩ := by
              unfold extractFromFile
              rw [if_pos hpdf, hp]
            rw [hr]
            exact Or.inr (dGet_eq_none_of_not_mem
              (pathA_keys ex raw (parseText raw)
                (keysSub_weaken (parseText_keys raw) (by decide))) herr)
          | err m =>
            have hr : extractFromFile doc = ⟨false, "", [], some m⟩ := by
              unfold extractFromFile
              rw [if_pos hpdf, hp]
            rw [hr]
            exact Or.inl ⟨m, rfl⟩
        · by_cases himg : [".jpg", ".jpeg", ".png", ".bmp", ".tiff"].contains
              (pyLowerS (fileSuffix doc.fileName))
          · have hr : extractFromFile doc = ⟨false, "", [], some ocrMsg⟩ := by
              unfold extractFromFile
              rw [if_neg hpdf, if_pos himg]
            rw [hr]
            exact Or.inl ⟨ocrMsg, rfl⟩
          · have hr : extractFromFile doc = ⟨false, "", [],
                some ("Unsupported file type: " ++
                  pyLowerS (fileSuffix doc.fileName))⟩ := by
              unfold extractFromFile
              rw [if_neg hpdf, if_neg himg]
            rw [hr]
            exact Or.inl ⟨_, rfl⟩
  · intro himage
    have heq : processInvoiceExtraction ex doc = [("error", Val.str imgMsg)] := by
      unfold processInvoiceExtraction
      rw [if_pos himage]
    refine ⟨heq, by decide, by decide, ?_⟩
    intro k hk
    rw [heq]
    unfold dGet
    rw [List.find?_eq_none.mpr]
    · rfl
    · intro kv hkv
      simp only [List.mem_singleton] at hkv
      subst hkv
      simp only [beq_iff_eq]
      exact fun he => hk he.symm

/-- C1 (witness): the image clause at a concrete `.JPG` upload. -/
theorem process_invoice_extraction_error_contract_witness :
    processInvoiceExtraction ⟨fun _ => [], []⟩ ⟨"photo.JPG", .ok "", false, none⟩ =
      [("error", Val.str imgMsg)] ∧
    hasSub imgMsg.data "PDF".data = true ∧
    hasSub imgMsg.data "text".data = true :=
  ⟨((process_invoice_extraction_error_contract ⟨fun _ => [], []⟩
      ⟨"photo.JPG", .ok "", false, none⟩).2 (by decide)).1,
   ((process_invoice_extraction_error_contract ⟨fun _ => [], []⟩
      ⟨"photo.JPG", .ok "", false, none⟩).2 (by decide)).2.1,
   ((process_invoice_extraction_error_contract ⟨fun _ => [], []⟩
      ⟨"photo.JPG", .ok "", false, none⟩).2 (by decide)).2.2.1⟩

end Start12

